import Mathlib

/-!
Verification of the eth-protocol-transcripts pipeline.

Shallow embedding of the Python sources (`zoom_fetcher.py`, `pmissues_monitor.py`,
`download_transcripts.py`, `github_uploader.py`, `generate_readme_table.py`,
`main.py`) as executable Lean definitions, with theorems settling the behavioural
claims about the pipeline.

Strings are modelled as `List Char` (Python `str` is a sequence of code points).
HTTP responses, file contents and other external data are passed in as explicit
parameters.  Fallible Python code (uncaught exceptions) is modelled with
`Option`/`Except`.
-/

namespace EthPT

/-! ### Basic string helpers (Python `str` operations on `List Char`) -/

/-- Python whitespace class `\s` (ASCII part): space, tab, newline, CR, FF, VT. -/
def isPySpace (c : Char) : Bool :=
  c = ' ' || c = '\t' || c = '\n' || c = '\r' || c = '\x0b' || c = '\x0c'

/-- Python regex word class `\w` (ASCII part): letters, digits, underscore. -/
def isWordChar (c : Char) : Bool :=
  c.isAlpha || c.isDigit || c = '_'

/-- Python `str.strip()`: drop leading and trailing whitespace. -/
def pyStrip (s : List Char) : List Char :=
  ((s.dropWhile isPySpace).reverse.dropWhile isPySpace).reverse

/-- Python `str.lower()` (ASCII). -/
def pyLower (s : List Char) : List Char := s.map Char.toLower

/-- Python `needle in haystack` substring test. -/
def pyIn (needle haystack : List Char) : Bool := decide (needle <:+: haystack)

/-- Python `str.isdigit()` (ASCII digits): non-empty and all digits. -/
def pyIsDigit (s : List Char) : Bool := s ≠ [] && s.all Char.isDigit

/-- Python nonneg decimal literal parse: all digits, at least one. -/
def digitsToNat (s : List Char) : Nat :=
  s.foldl (fun acc c => acc * 10 + (c.toNat - 48)) 0

/-- Python `int(s)` restricted to an optional sign, optional surrounding spaces,
and a non-empty digit string (the shapes that occur in this pipeline). -/
def pyInt (s : List Char) : Option Int :=
  let t := pyStrip s
  match t with
  | '-' :: ds => if pyIsDigit ds then some (-(digitsToNat ds : Int)) else none
  | '+' :: ds => if pyIsDigit ds then some (digitsToNat ds : Int) else none
  | ds => if pyIsDigit ds then some (digitsToNat ds : Int) else none

/-- Python f-string `{n:03d}` formatting of an integer: zero-pad to width 3,
a leading minus sign counts towards the width. -/
def pad3 (n : Int) : List Char :=
  let digits := (Int.natAbs n).repr.toList
  let body :=
    if n < 0 then
      '-' :: (List.replicate (3 - 1 - digits.length) '0') ++ digits
    else
      (List.replicate (3 - digits.length) '0') ++ digits
  body

/-- Exceptions raised by the Python fragments we model. -/
inductive PyErr where
  | typeError
  | valueError
deriving DecidableEq, Repr

/-! ### Calendar arithmetic (for `datetime` validation and ordering) -/

/-- Gregorian leap year. -/
def isLeap (y : Nat) : Bool := (y % 4 = 0 && y % 100 ≠ 0) || y % 400 = 0

/-- Number of days of month `m` in year `y`. -/
def daysInMonth (y m : Nat) : Nat :=
  if m = 2 then (if isLeap y then 29 else 28)
  else if m = 4 || m = 6 || m = 9 || m = 11 then 30
  else 31

/-- Days since 1970-01-01 of a civil date (Howard Hinnant's algorithm); used
only to compare `datetime` values, mirroring timestamp ordering. -/
def daysFromCivil (y m d : Nat) : Int :=
  let yi : Int := if m ≤ 2 then (y : Int) - 1 else (y : Int)
  let era : Int := (if 0 ≤ yi then yi else yi - 399) / 400
  let yoe : Int := yi - era * 400
  let mp : Int := ((m : Int) + 9) % 12
  let doy : Int := (153 * mp + 2) / 5 + (d : Int) - 1
  let doe : Int := yoe * 365 + yoe / 4 - yoe / 100 + doy
  era * 146097 + doe - 719468

/-! ### `datetime.strptime` (the directives used by this repository)

CPython's `_strptime` compiles a format into a regex (compiled with
`re.IGNORECASE`): whitespace in the format becomes `\s+`, `%d` becomes
`3[01]|[12]\d|0[1-9]|[1-9]`, `%m` becomes `1[0-2]|0[1-9]|[1-9]`, `%Y` becomes
`\d{4}`, `%y` becomes `\d\d` (0-68 mapping to 2000+, 69-99 to 1900+), `%B`/`%b`
an alternation of the English month names; the regex must consume the whole
string and the resulting date must be a real calendar date. -/

/-- Format directives appearing in the formats used by the repository. -/
inductive FTok where
  | monthFull
  | monthAbbr
  | day
  | month2
  | year4
  | year2
  | lit (c : Char)
  | ws
deriving DecidableEq, Repr

/-- English full month names, lowercased, with month numbers. -/
def fullMonths : List (List Char × Nat) :=
  [(("january").toList, 1), (("february").toList, 2), (("march").toList, 3),
   (("april").toList, 4), (("may").toList, 5), (("june").toList, 6),
   (("july").toList, 7), (("august").toList, 8), (("september").toList, 9),
   (("october").toList, 10), (("november").toList, 11), (("december").toList, 12)]

/-- English abbreviated month names, lowercased, with month numbers. -/
def abbrMonths : List (List Char × Nat) :=
  [(("jan").toList, 1), (("feb").toList, 2), (("mar").toList, 3),
   (("apr").toList, 4), (("may").toList, 5), (("jun").toList, 6),
   (("jul").toList, 7), (("aug").toList, 8), (("sep").toList, 9),
   (("oct").toList, 10), (("nov").toList, 11), (("dec").toList, 12)]

/-- Case-insensitive month-name match at the head of the input (no month name
is a prefix of another within either table, so first-fit is the regex
behaviour). -/
def matchMonthName (names : List (List Char × Nat)) (t : List Char) :
    Option (Nat × List Char) :=
  names.findSome? fun nm =>
    if pyLower (t.take nm.1.length) = nm.1 ∧ (t.take nm.1.length).length = nm.1.length
    then some (nm.2, t.drop nm.1.length)
    else none

/-- Digit value of an ASCII digit character. -/
def digitVal (c : Char) : Nat := c.toNat - 48

/-- Alternatives for `%d` = `3[01]|[12]\d|0[1-9]|[1-9]`, in regex alternation
order (backtracking tries them in this order). -/
def dayAlts (t : List Char) : List (Nat × List Char) :=
  (match t with
   | a :: b :: rest =>
     (if a = '3' && (b = '0' || b = '1') then [(30 + digitVal b, rest)] else []) ++
     (if (a = '1' || a = '2') && b.isDigit then
        [(digitVal a * 10 + digitVal b, rest)] else []) ++
     (if a = '0' && ('1' ≤ b && b ≤ '9') then [(digitVal b, rest)] else [])
   | _ => []) ++
  (match t with
   | a :: rest => if '1' ≤ a && a ≤ '9' then [(digitVal a, rest)] else []
   | [] => [])

/-- Alternatives for `%m` = `1[0-2]|0[1-9]|[1-9]`, in regex alternation order. -/
def monthAlts (t : List Char) : List (Nat × List Char) :=
  (match t with
   | a :: b :: rest =>
     (if a = '1' && ('0' ≤ b && b ≤ '2') then [(10 + digitVal b, rest)] else []) ++
     (if a = '0' && ('1' ≤ b && b ≤ '9') then [(digitVal b, rest)] else [])
   | _ => []) ++
  (match t with
   | a :: rest => if '1' ≤ a && a ≤ '9' then [(digitVal a, rest)] else []
   | [] => [])

/-- Exactly `n` decimal digits at the head of the input. -/
def takeDigits (n : Nat) (t : List Char) : Option (List Char × List Char) :=
  let ds := t.take n
  if ds.length = n && ds.all Char.isDigit then some (ds, t.drop n) else none

/-- A non-empty maximal whitespace run at the head of the input (`\s+`; in the
formats used here it is always followed by a non-whitespace class, so the
maximal run is the only viable split). -/
def wsPlus (t : List Char) : Option (List Char × List Char) :=
  let run := t.takeWhile isPySpace
  if run.length = 0 then none else some (run, t.drop run.length)

/-- Fields captured while running a format. -/
structure PState where
  month : Option Nat := none
  day : Option Nat := none
  year : Option Nat := none
deriving DecidableEq, Repr

/-- Run a compiled format against the whole input, with the regex-alternation
backtracking of the numeric directives; fails if input remains. -/
def runFmt : List FTok → List Char → PState → Option PState
  | [], [], st => some st
  | [], _ :: _, _ => none
  | .monthFull :: toks, t, st =>
      (matchMonthName fullMonths t).bind fun r =>
        runFmt toks r.2 { st with month := some r.1 }
  | .monthAbbr :: toks, t, st =>
      (matchMonthName abbrMonths t).bind fun r =>
        runFmt toks r.2 { st with month := some r.1 }
  | .day :: toks, t, st =>
      (dayAlts t).findSome? fun r => runFmt toks r.2 { st with day := some r.1 }
  | .month2 :: toks, t, st =>
      (monthAlts t).findSome? fun r => runFmt toks r.2 { st with month := some r.1 }
  | .year4 :: toks, t, st =>
      (takeDigits 4 t).bind fun r =>
        runFmt toks r.2 { st with year := some (digitsToNat r.1) }
  | .year2 :: toks, t, st =>
      (takeDigits 2 t).bind fun r =>
        let yy := digitsToNat r.1
        runFmt toks r.2
          { st with year := some (if yy < 69 then 2000 + yy else 1900 + yy) }
  | .lit c :: toks, t, st =>
      match t with
      | x :: rest => if x = c then runFmt toks rest st else none
      | [] => none
  | .ws :: toks, t, st =>
      (wsPlus t).bind fun r => runFmt toks r.2 st

/-- `datetime.strptime` for a year/month/day format: run the regex, default the
missing fields like `datetime` does (1900-01-01), and validate the calendar
date (`datetime` raises on day-out-of-range and on year 0). -/
def strptimeYmd (fmt : List FTok) (s : List Char) : Option (Nat × Nat × Nat) :=
  (runFmt fmt s {}).bind fun st =>
    let y := st.year.getD 1900
    let m := st.month.getD 1
    let d := st.day.getD 1
    if 1 ≤ y ∧ 1 ≤ m ∧ m ≤ 12 ∧ 1 ≤ d ∧ d ≤ daysInMonth y m then some (y, m, d)
    else none

/-- `strptime` success test (the repository mostly uses it for validation). -/
def strptimeOk (fmt : List FTok) (s : List Char) : Bool := (strptimeYmd fmt s).isSome

/-- Format `'%B %d %Y'`. -/
def fmtBdY : List FTok := [.monthFull, .ws, .day, .ws, .year4]

/-- Format `'%B %d, %Y'`. -/
def fmtBdCY : List FTok := [.monthFull, .ws, .day, .lit ',', .ws, .year4]

/-- Format `'%b %d %Y'`. -/
def fmtbdY : List FTok := [.monthAbbr, .ws, .day, .ws, .year4]

/-- Format `'%b %d, %Y'`. -/
def fmtbdCY : List FTok := [.monthAbbr, .ws, .day, .lit ',', .ws, .year4]

/-- Format `'%d %B %Y'`. -/
def fmtdBY : List FTok := [.day, .ws, .monthFull, .ws, .year4]

/-- Format `'%d %b %Y'`. -/
def fmtdbY : List FTok := [.day, .ws, .monthAbbr, .ws, .year4]

/-- Format `'%Y-%m-%d'`. -/
def fmtYmd : List FTok := [.year4, .lit '-', .month2, .lit '-', .day]

/-- Format `'%m/%d/%Y'`. -/
def fmtmdY : List FTok := [.month2, .lit '/', .day, .lit '/', .year4]

/-- Format `'%m-%d-%Y'`. -/
def fmtmdYdash : List FTok := [.month2, .lit '-', .day, .lit '-', .year4]

/-- Format `'%m-%d-%y'`. -/
def fmtmdydash : List FTok := [.month2, .lit '-', .day, .lit '-', .year2]

/-! ### Regex fragments used by `extract_date_from_text`

The five date patterns are fixed, so each is embedded as a matcher with the
leftmost-then-greedy backtracking semantics of `re.search` (compiled with
`re.IGNORECASE`, which only affects the ordinal suffix group). -/

/-- Ordinal suffix pair `st|nd|rd|th` (lowercase; the `re.sub` removing
ordinals is case-sensitive). -/
def isOrdinalPair (a b : Char) : Bool :=
  (a = 's' && b = 't') || (a = 'n' && b = 'd') || (a = 'r' && b = 'd') ||
    (a = 't' && b = 'h')

/-- Scanner for `re.sub(r'(\d+)(st|nd|rd|th)', r'\1', s)`: `acc` holds the
digit run currently being read (reversed).  A maximal digit run immediately
followed by an ordinal pair loses the pair; backtracking inside a digit run can
never produce another match, because an ordinal never starts with a digit. -/
def subOrdAux (acc : List Char) : List Char → List Char
  | [] => acc.reverse
  | c :: rest =>
    if c.isDigit then subOrdAux (c :: acc) rest
    else if acc ≠ [] then
      match rest with
      | b :: rest2 =>
        if isOrdinalPair c b then acc.reverse ++ subOrdAux [] rest2
        else acc.reverse ++ c :: subOrdAux [] (b :: rest2)
      | [] => acc.reverse ++ [c]
    else c :: subOrdAux [] rest

/-- `re.sub(r'(\d+)(st|nd|rd|th)', r'\1', s)` (case-sensitive, leftmost
non-overlapping matches). -/
def subOrdinals (s : List Char) : List Char := subOrdAux [] s

/-- Scanner for `re.sub(r'\s+', ' ', s)`: `inRun` records whether the previous
character was whitespace already replaced by the single space. -/
def collapseWsAux (inRun : Bool) : List Char → List Char
  | [] => []
  | c :: rest =>
    if isPySpace c then
      if inRun then collapseWsAux true rest else ' ' :: collapseWsAux true rest
    else c :: collapseWsAux false rest

/-- `re.sub(r'\s+', ' ', s)`: each maximal whitespace run becomes one space. -/
def collapseWs (s : List Char) : List Char := collapseWsAux false s

/-- The normalisation applied to a matched date string: remove ordinal
suffixes, collapse whitespace runs, strip. -/
def normalizeDateStr (m : List Char) : List Char :=
  pyStrip (collapseWs (subOrdinals m))

/-- Word boundary `\b` before a match that begins with a word character:
holds iff there is no previous character or it is not a word character. -/
def boundaryOkBefore (prev : Option Char) : Bool :=
  match prev with
  | none => true
  | some p => !(isWordChar p)

/-- Word boundary `\b` after a match that ends with a word character:
holds iff the remaining input is empty or starts with a non-word character. -/
def boundaryOkAfter (t : List Char) : Bool :=
  match t with
  | [] => true
  | c :: _ => !(isWordChar c)

/-- Exactly `n` word characters at the head of the input. -/
def takeWordChars (n : Nat) (t : List Char) : Option (List Char × List Char) :=
  let w := t.take n
  if w.length = n && w.all isWordChar then some (w, t.drop n) else none

/-- A single literal character. -/
def litChar (c : Char) (t : List Char) : Option (List Char × List Char) :=
  match t with
  | x :: rest => if x = c then some ([x], rest) else none
  | [] => none

/-- Greedy optional ordinal group `(?:st|nd|rd|th)?` under `re.IGNORECASE`:
try consuming the pair first, then the empty alternative. -/
def ordAlts (t : List Char) : List (List Char × List Char) :=
  match t with
  | a :: b :: rest =>
    if isOrdinalPair a.toLower b.toLower then [([a, b], rest), ([], a :: b :: rest)]
    else [([], a :: b :: rest)]
  | _ => [([], t)]

/-- Greedy optional comma `,?`: with-comma first, then empty. -/
def commaAlts (t : List Char) : List (List Char × List Char) :=
  match t with
  | ',' :: rest => [([','], rest), ([], ',' :: rest)]
  | _ => [([], t)]

/-- Separator character class: dash, slash or dot. -/
def sepClass (t : List Char) : Option (List Char × List Char) :=
  match t with
  | x :: rest => if x = '-' || x = '/' || x = '.' then some ([x], rest) else none
  | [] => none

/-- Pattern `\b(\w{3,9}\s+\d{1,2}(?:st|nd|rd|th)?,?\s+\d{4})\b` matched at one
position (group 1 returned).  `\w{3,9}` and `\d{1,2}` are greedy with
backtracking; `\s+` is always followed by a disjoint class, so only the maximal
run can extend a match. -/
def matchP1 (prev : Option Char) (s : List Char) : Option (List Char) :=
  if boundaryOkBefore prev = false then none else
  [9, 8, 7, 6, 5, 4, 3].findSome? fun n1 =>
    (takeWordChars n1 s).bind fun w =>
      (wsPlus w.2).bind fun sp1 =>
        [2, 1].findSome? fun n2 =>
          (takeDigits n2 sp1.2).bind fun ds =>
            (ordAlts ds.2).findSome? fun oc =>
              (commaAlts oc.2).findSome? fun cc =>
                (wsPlus cc.2).bind fun sp2 =>
                  (takeDigits 4 sp2.2).bind fun yr =>
                    if boundaryOkAfter yr.2 then
                      some (w.1 ++ sp1.1 ++ ds.1 ++ oc.1 ++ cc.1 ++ sp2.1 ++ yr.1)
                    else none

/-- Pattern `\b(\d{1,2}\s+\w{3,9}\s+\d{4})\b` matched at one position. -/
def matchP2 (prev : Option Char) (s : List Char) : Option (List Char) :=
  if boundaryOkBefore prev = false then none else
  [2, 1].findSome? fun n1 =>
    (takeDigits n1 s).bind fun ds =>
      (wsPlus ds.2).bind fun sp1 =>
        [9, 8, 7, 6, 5, 4, 3].findSome? fun n2 =>
          (takeWordChars n2 sp1.2).bind fun w =>
            (wsPlus w.2).bind fun sp2 =>
              (takeDigits 4 sp2.2).bind fun yr =>
                if boundaryOkAfter yr.2 then
                  some (ds.1 ++ sp1.1 ++ w.1 ++ sp2.1 ++ yr.1)
                else none

/-- Pattern `\b(\d{4}-\d{2}-\d{2})\b` matched at one position. -/
def matchP3 (prev : Option Char) (s : List Char) : Option (List Char) :=
  if boundaryOkBefore prev = false then none else
  (takeDigits 4 s).bind fun y =>
    (litChar '-' y.2).bind fun l1 =>
      (takeDigits 2 l1.2).bind fun mo =>
        (litChar '-' mo.2).bind fun l2 =>
          (takeDigits 2 l2.2).bind fun d =>
            if boundaryOkAfter d.2 then
              some (y.1 ++ l1.1 ++ mo.1 ++ l2.1 ++ d.1)
            else none

/-- Pattern `\b(\d{1,2}/\d{1,2}/\d{4})\b` matched at one position. -/
def matchP4 (prev : Option Char) (s : List Char) : Option (List Char) :=
  if boundaryOkBefore prev = false then none else
  [2, 1].findSome? fun n1 =>
    (takeDigits n1 s).bind fun d1 =>
      (litChar '/' d1.2).bind fun l1 =>
        [2, 1].findSome? fun n2 =>
          (takeDigits n2 l1.2).bind fun d2 =>
            (litChar '/' d2.2).bind fun l2 =>
              (takeDigits 4 l2.2).bind fun yr =>
                if boundaryOkAfter yr.2 then
                  some (d1.1 ++ l1.1 ++ d2.1 ++ l2.1 ++ yr.1)
                else none

/-- The fifth date pattern (day, separator in dash slash dot, day, separator, two-digit year) matched at one position. -/
def matchP5 (prev : Option Char) (s : List Char) : Option (List Char) :=
  if boundaryOkBefore prev = false then none else
  [2, 1].findSome? fun n1 =>
    (takeDigits n1 s).bind fun d1 =>
      (sepClass d1.2).bind fun l1 =>
        [2, 1].findSome? fun n2 =>
          (takeDigits n2 l1.2).bind fun d2 =>
            (sepClass d2.2).bind fun l2 =>
              (takeDigits 2 l2.2).bind fun yr =>
                if boundaryOkAfter yr.2 then
                  some (d1.1 ++ l1.1 ++ d2.1 ++ l2.1 ++ yr.1)
                else none

/-- `re.search` driver: try the matcher at each position from the left,
tracking the previous character for `\b`. -/
def searchWith (f : Option Char → List Char → Option (List Char)) :
    Option Char → List Char → Option (List Char)
  | prev, [] => f prev []
  | prev, c :: rest =>
    match f prev (c :: rest) with
    | some m => some m
    | none => searchWith f (some c) rest

/-- The ordered cascade over the five date patterns (first pattern with a
match anywhere wins; later patterns are not tried). -/
def datePatternSearch (text : List Char) : Option (List Char) :=
  match searchWith matchP1 none text with
  | some m => some m
  | none =>
    match searchWith matchP2 none text with
    | some m => some m
    | none =>
      match searchWith matchP3 none text with
      | some m => some m
      | none =>
        match searchWith matchP4 none text with
        | some m => some m
        | none => searchWith matchP5 none text

/-- The `test_formats` list of `extract_date_from_text`, in source order. -/
def test_formats : List (List FTok) :=
  [fmtBdY, fmtBdCY, fmtbdY, fmtbdCY, fmtdBY, fmtdbY, fmtYmd, fmtmdY,
   fmtmdYdash, fmtmdydash]

/-- The validation loop of `extract_date_from_text`: try each format and
return the string on the first success; if no format works, still return the
string. -/
def validateLoop : List (List FTok) → List Char → List Char
  | [], ds => ds
  | f :: fs, ds => if strptimeOk f ds then ds else validateLoop fs ds

/-- `extract_date_from_text`: search the five patterns in order; on a match,
normalise (ordinals removed, whitespace collapsed, stripped) and run the
validation loop; with no match anywhere, `None`. -/
def extract_date_from_text (text : List Char) : Option (List Char) :=
  match datePatternSearch text with
  | none => none
  | some m => some (validateLoop test_formats (normalizeDateStr m))

/-! ### `meetings_config.py` -/

/-- `WHITELISTED_MEETINGS`: meeting id, display name, owner (static). -/
def WHITELISTED_MEETINGS : List (List Char × List Char × List Char) :=
  [(("859 6920 2880").toList, ("All Core Devs - Consensus (ACDC)").toList, ("Nico").toList),
   (("842 5123 7513").toList, ("All Core Devs - Testing (ACDT)").toList, ("Nico").toList),
   (("854 5172 3466").toList, ("All Core Devs - Execution (ACDE)").toList, ("zoom-bot").toList),
   (("884 7930 8162").toList, ("All Core Devs - Testing (ACDT)").toList, ("zoom-bot").toList),
   (("842 6574 5580").toList, ("FOCIL").toList, ("Nico").toList),
   (("879 4371 9720").toList, ("RPC standards").toList, ("zoom-bot").toList),
   (("865 3706 0608").toList, ("ePBS (EIP 7732)").toList, ("Nico").toList),
   (("851 1464 8304").toList, ("EIP Editing Office Hour").toList, ("zoom-bot").toList),
   (("899 1066 9821").toList, ("PQ Interop").toList, ("zoom-bot").toList),
   (("889 0262 7473").toList, ("EIP-7928").toList, ("zoom-bot").toList),
   (("891 5137 3845").toList, ("Trustless Agents").toList, ("zoom-bot").toList),
   (("895 6907 7828").toList, ("L2 Interop").toList, ("Josh Rudolf").toList),
   (("882 6983 6469").toList, ("All Core Devs - Execution (ACDE)").toList, ("Nico").toList),
   (("837 0323 9965").toList, ("All Core Devs - Consensus (ACDC)").toList, ("Tim Beiko").toList),
   (("871 9809 0010").toList, ("ETH simulate").toList, ("Nico").toList),
   (("875 6921 0985").toList, ("ePBS (EIP 7732)").toList, ("Tim Beiko").toList),
   (("864 6616 9680").toList, ("All Core Devs - Testing (ACDT)").toList, ("Matt Garnett").toList),
   (("883 1710 1307").toList, ("EVM Resource Pricing").toList, ("Nico").toList),
   (("831 7171 3683").toList, ("Portal").toList, ("Nico").toList),
   (("913 4859 2283").toList, ("All Core Devs - Execution (ACDE)").toList, ("Tim Beiko").toList),
   (("822 2793 8777").toList, ("All Wallet Devs").toList, ("Nico").toList),
   (("857 1853 2657").toList, ("Roll Call").toList, ("Nico").toList)]

/-- `WHITELISTED_MEETING_IDS`: the ids with spaces removed. -/
def WHITELISTED_MEETING_IDS : List (List Char) :=
  WHITELISTED_MEETINGS.map (fun e => e.1.filter (fun c => c ≠ ' '))

/-! ### `pmissues_monitor.py` -/

namespace PM

/-- A GitHub issue as consumed by the monitor (`number`, `title`, `body`,
`closed_at` keys; `body` and `closed_at` may be JSON null, modelled `none`;
a missing `title` defaults to the empty string). -/
structure Issue where
  number : Option Int
  title : List Char
  body : Option (List Char)
  closed_at : Option (List Char)
  state : List Char
deriving DecidableEq, Repr

/-- The dictionary returned by `parse_issue_for_meeting_info`. -/
structure MeetingInfo where
  possible_meeting_ids : List (List Char)
  meeting_name : List Char
  meeting_number : Option (List Char)
  date_str : Option (List Char)
  issue_number : Option Int
  issue_title : List Char
  closed_at : Option (List Char)
  owners : List (List Char)
deriving DecidableEq, Repr

/-- Python truthiness of an optional string (`None` and `""` are falsy). -/
def truthyStr : Option (List Char) → Bool
  | some s => s ≠ []
  | none => false

/-- `re.search(r'#(\d+)', title)`: first `#` followed by at least one digit;
the group is the maximal digit run after it. -/
def searchHashNumber : List Char → Option (List Char)
  | [] => none
  | c :: rest =>
    if c = '#' then
      let ds := rest.takeWhile Char.isDigit
      if ds ≠ [] then some ds else searchHashNumber rest
    else searchHashNumber rest

/-- Lowercase and remove spaces (`.lower().replace(" ", "")`). -/
def normNS (s : List Char) : List Char := (pyLower s).filter (fun c => c ≠ ' ')

/-- The pre-parenthesis part of a display name
(`name.split("(")[0].strip() if "(" in name else name`). -/
def baseName (name : List Char) : List Char :=
  if name.contains '(' then pyStrip (name.takeWhile (fun c => c ≠ '(')) else name

/-- The `any([...])` whitelist-entry match: exact lowercase containment,
space-insensitive containment, or pre-parenthesis containment. -/
def entryMatches (title name : List Char) : Bool :=
  pyIn (pyLower name) (pyLower title) ||
  pyIn (normNS name) (normNS title) ||
  pyIn (normNS (baseName name)) (normNS title)

/-- The date found for an issue: title first, then the first 500 characters of
a truthy body (`if not meeting_date and body`). -/
def issueMeetingDate (issue : Issue) : Option (List Char) :=
  let td := extract_date_from_text issue.title
  if truthyStr td then td
  else
    match issue.body with
    | some b => if b ≠ [] then extract_date_from_text (b.take 500) else td
    | none => td

/-- The dictionary built from the non-empty `matched_meetings` list (hoisted
from `parse_issue_for_meeting_info`; the date and number extraction do not
depend on the matched entries). -/
def mkMeetingInfo (issue : Issue)
    (m : List Char × List Char × List Char)
    (ms : List (List Char × List Char × List Char)) : MeetingInfo :=
  { possible_meeting_ids := (m :: ms).map (fun e => e.1),
    meeting_name := m.2.1,
    meeting_number := searchHashNumber issue.title,
    date_str := issueMeetingDate issue,
    issue_number := issue.number,
    issue_title := issue.title,
    closed_at := issue.closed_at,
    owners := ((m :: ms).map (fun e => e.2.2)).dedup }

/-- `parse_issue_for_meeting_info`. -/
def parse_issue_for_meeting_info (issue : Issue) : Option MeetingInfo :=
  match WHITELISTED_MEETINGS.filter (fun e => entryMatches issue.title e.2.1) with
  | [] => none
  | m :: ms => some (mkMeetingInfo issue m ms)

/-- The format list of `parse_meeting_datetime`, in source order. -/
def pmFormats : List (List FTok) :=
  [fmtBdCY, fmtBdY, fmtbdCY, fmtbdY, fmtdBY, fmtdbY, fmtYmd, fmtmdY,
   fmtmdYdash, fmtmdydash]

/-- `parse_meeting_datetime`: clean the string like the extractor does, try
the formats in order, and pin the time of day to 14:00. -/
def parse_meeting_datetime (date_str : Option (List Char)) :
    Option (Nat × Nat × Nat) :=
  match date_str with
  | none => none
  | some ds0 =>
    if ds0 = [] then none
    else
      let ds := pyStrip (collapseWs (subOrdinals ds0))
      pmFormats.findSome? (fun f => strptimeYmd f ds)

/-- A `datetime` with a given hour, measured in minutes for ordering
(`strptime` results carry no timezone; ordering is what the comparisons use). -/
def dtMinutes (y m d hour : Nat) : Int := daysFromCivil y m d * 1440 + hour * 60

/-- The filtering phase of `get_meetings_ready_to_process`: of the fetched
issues (open and closed), keep those matching a whitelisted meeting whose
parsed meeting date (at 14:00) is neither older than `days_back` days nor
later than `now - buffer_hours`.  `nowMinutes` abstracts `datetime.now()` to
minute precision (the compared values are whole minutes). -/
def get_meetings_ready_to_process (all_issues : List Issue) (nowMinutes : Int)
    (days_back buffer_hours : Nat) : List Issue :=
  let cutoff := nowMinutes - (days_back : Int) * 1440
  let ready_threshold := nowMinutes - (buffer_hours : Int) * 60
  all_issues.filter fun issue =>
    match parse_issue_for_meeting_info issue with
    | none => false
    | some info =>
      if truthyStr info.date_str = false then false
      else
        match parse_meeting_datetime info.date_str with
        | none => false
        | some ymd =>
          let mt := dtMinutes ymd.1 ymd.2.1 ymd.2.2 14
          decide (¬ (mt < cutoff) ∧ ¬ (mt > ready_threshold))

end PM

/-! ### `zoom_fetcher.py` -/

namespace Zoom

/-- One file attached to a Zoom cloud recording (`recording_files` entry).
`downloadOk` records whether fetching its `download_url` returns HTTP 200. -/
structure RecFile where
  file_type : List Char
  downloadOk : Bool
deriving DecidableEq, Repr

/-- A Zoom cloud recording, as listed by the per-user recordings endpoint.
`id` is `str(meeting.get("id", ""))`; `duration` is the `duration` key when
present (minutes); `matched_meeting_id` is the key the fetcher adds. -/
structure Recording where
  id : List Char
  duration : Option Int
  topic : List Char
  start_time : List Char
  host_email : List Char
  matched_meeting_id : Option (List Char)
  recording_files : List RecFile
deriving DecidableEq, Repr

/-- `meeting.get("duration", 0)`. -/
def durD (r : Recording) : Int := r.duration.getD 0

/-- `mid.replace(" ", "").replace("-", "")`. -/
def cleanId (s : List Char) : List Char :=
  (s.filter (fun c => c ≠ ' ')).filter (fun c => c ≠ '-')

/-- One page of a `GET /users/{email}/recordings` response:
HTTP 200 carries an optional `meetings` array and a next-page token flag;
any other status makes the listing loop for that user stop. -/
inductive PageResp where
  | ok (meetings : Option (List Recording)) (nextPageToken : Bool)
  | fail (status : Nat)
deriving DecidableEq, Repr

/-- The per-user page loop of `get_all_recordings_in_range`: pages are consumed
until a page has no `next_page_token` or a request fails (404 or any other
non-200 status breaks the loop; recordings from earlier pages are kept).
Each listed meeting gets `host_email` set to the queried user. -/
def processHostPages (email : List Char) : List PageResp → List Recording
  | [] => []
  | .fail _ :: _ => []
  | .ok ms next :: rest =>
      (ms.getD []).map (fun m => { m with host_email := email }) ++
        (if next then processHostPages email rest else [])

/-- `get_all_recordings_in_range`: concatenates the page loops of all
whitelisted hosts (each host given with its sequence of page responses). -/
def get_all_recordings_in_range (hosts : List (List Char × List PageResp)) :
    List Recording :=
  hosts.foldl (fun acc h => acc ++ processHostPages h.1 h.2) []

/-- The inner loop finding the original (un-normalized) requested meeting id
whose cleaned form equals the cleaned Zoom id. -/
def findMatchedId (meeting_ids : List (List Char)) (zoomClean : List Char) :
    Option (List Char) :=
  meeting_ids.find? (fun mid => cleanId mid == zoomClean)

/-- The matching filter of `get_recordings_for_meeting_ids`: keep recordings
whose cleaned id equals one of the cleaned requested ids, recording the matched
original id on the way. -/
def matchingRecordings (meeting_ids : List (List Char)) (all : List Recording) :
    List Recording :=
  let cleanIds := meeting_ids.map cleanId
  all.filterMap (fun m =>
    let zc := cleanId m.id
    if cleanIds.contains zc then
      some { m with matched_meeting_id := findMatchedId meeting_ids zc }
    else none)

/-- Python `max(candidates, key=...)` keeps the current best and replaces it only
on a strictly larger key, so ties go to the first-encountered element. -/
def pyMaxFold (x : Recording) (xs : List Recording) : Recording :=
  xs.foldl (fun best m => if durD m > durD best then m else best) x

/-- `max(all_matching_recordings, key=lambda x: x.get("duration", 0))`,
returning `none` on an empty list (the code guards this with an early return). -/
def pyMaxByDuration : List Recording → Option Recording
  | [] => none
  | x :: xs => some (pyMaxFold x xs)

/-- A concrete recording used by witnesses and counterexamples below. -/
def sampleRec (i : List Char) (d : Int) : Recording :=
  { id := i, duration := some d, topic := [], start_time := [],
    host_email := [], matched_meeting_id := none, recording_files := [] }

/-- A page sequence in which the first page succeeds with a further-pages token
and the second request fails with HTTP 500. -/
def samplePagesErr : List PageResp :=
  [PageResp.ok (some [sampleRec (("1-23").toList) 30]) true, PageResp.fail 500]

/-- `get_recordings_for_meeting_ids`.  `dateParses` abstracts the outcome of the
date-window `try` block (strptime formats with a `dateutil` fallback): when it
fails the function returns `None` before any listing happens.  The sub-10-minute
warning only logs and does not change the result. -/
def get_recordings_for_meeting_ids (dateParses : Bool)
    (hosts : List (List Char × List PageResp)) (meeting_ids : List (List Char)) :
    Option Recording :=
  if dateParses = false then none
  else
    let all := get_all_recordings_in_range hosts
    let matching := matchingRecordings meeting_ids all
    pyMaxByDuration matching

end Zoom

/-! ### `scripts/download_transcripts.py` -/

namespace DL

/-- The `type_mappings` dictionary, in insertion order. -/
def type_mappings : List (List Char × List Char) :=
  [(("Interop Testing - (ACDT)").toList, ("ACDT").toList),
   (("Interop Testing").toList, ("ACDT").toList),
   (("All Core Devs - Testing (ACDT)").toList, ("ACDT").toList),
   (("All Core Devs - Consensus (ACDC)").toList, ("ACDC").toList),
   (("All Core Devs - Execution (ACDE)").toList, ("ACDE").toList),
   (("AllCoreDevs - Execution").toList, ("ACDE").toList),
   (("RPC Standards").toList, ("RPC-Standards").toList),
   (("RPC standards").toList, ("RPC-Standards").toList),
   (("PQ Interop").toList, ("PQ-Interop").toList),
   (("L2 Interop").toList, ("L2-Interop").toList),
   (("EIP Editing Office Hour").toList, ("EIP-Editing-Office-Hour").toList),
   (("EIP-Editing-Office-Hour").toList, ("EIP-Editing-Office-Hour").toList),
   (("EIP-7928").toList, ("BAL").toList),
   (("FOCIL").toList, ("FOCIL").toList),
   (("Focil").toList, ("FOCIL").toList),
   (("Trustless Agents").toList, ("Trustless-Agents").toList),
   (("ePBS").toList, ("ePBS").toList),
   (("EVM Resource Pricing").toList, ("EVM-Resource-Pricing").toList),
   (("Portal").toList, ("Portal").toList),
   (("All Wallet Devs").toList, ("All-Wallet-Devs").toList),
   (("Roll Call").toList, ("Roll-Call").toList),
   (("ETH simulate").toList, ("ETH-simulate").toList),
   (("Gas repricing Breakout Room").toList, ("Gas-Repricing").toList),
   (("Gas repricing").toList, ("Gas-Repricing").toList),
   (("Gas-Repricing").toList, ("Gas-Repricing").toList)]

/-- Stable insertion for `sorted(..., key=lambda x: len(x[0]), reverse=True)`:
an element goes after every earlier element of length at least its own. -/
def insertLenDesc (x : List Char × List Char) :
    List (List Char × List Char) → List (List Char × List Char)
  | [] => [x]
  | y :: ys => if y.1.length ≥ x.1.length then y :: insertLenDesc x ys
               else x :: y :: ys

/-- `sorted_patterns`: the mappings sorted by pattern length, longest first,
stable (Python `sorted` is stable). -/
def sorted_patterns : List (List Char × List Char) :=
  type_mappings.foldl (fun acc x => insertLenDesc x acc) []

/-- `re.search(r'Call (\d+)', topic, re.IGNORECASE)`: the literal `Call` plus
one space, case-insensitively, followed by a maximal digit run. -/
def searchCallNumber : List Char → Option (List Char)
  | [] => none
  | c :: rest =>
    if pyLower (List.take 5 (c :: rest)) = ("call ").toList then
      let ds := (List.drop 5 (c :: rest)).takeWhile Char.isDigit
      if ds ≠ [] then some ds else searchCallNumber rest
    else searchCallNumber rest

/-- Head test for the Call-tail removal regex (slash or dash, `Call`, slash or dash, a digit); case-sensitive. -/
def isCallTailAt (t : List Char) : Bool :=
  match t with
  | a :: 'C' :: 'a' :: 'l' :: 'l' :: b :: c :: _ =>
    (a = '/' || a = '-') && (b = '/' || b = '-') && c.isDigit
  | _ => false

/-- The Call-tail removal substitution: drop everything from the leftmost
`-Call-N` (or slash-separated) marker, the trailing `.*$` swallowing the rest
of the string. -/
def subCallTail : List Char → List Char
  | [] => []
  | c :: rest => if isCallTailAt (c :: rest) then [] else c :: subCallTail rest

/-- The final fallback of `extract_meeting_info`:
`re.match(r'^([A-Za-z0-9\s-]+)', topic)` then strip, spaces to dashes, and the
Call-tail removal; `"Unknown"` when the topic starts outside the class. -/
def fallbackType (topic : List Char) : List Char :=
  let run := topic.takeWhile
    (fun c => c.isAlpha || c.isDigit || isPySpace c || c = '-')
  if run = [] then ("Unknown").toList
  else subCallTail ((pyStrip run).map (fun c => if c = ' ' then '-' else c))

/-- `extract_meeting_info`: meeting number from `#N` (else `Call N`), meeting
type from the longest-first exact containment pass, then the case-insensitive
pass, then the fallback cleanup. -/
def extract_meeting_info (topic : List Char) : List Char × Option (List Char) :=
  let meeting_num :=
    match PM.searchHashNumber topic with
    | some n => some n
    | none => searchCallNumber topic
  let meeting_type :=
    match sorted_patterns.find? (fun p => pyIn p.1 topic) with
    | some p => p.2
    | none =>
      match sorted_patterns.find? (fun p => pyIn (pyLower p.1) (pyLower topic)) with
      | some p => p.2
      | none => fallbackType topic
  (meeting_type, meeting_num)

/-- The artifact files written by the download loop, in `recording_files`
order: `transcript.vtt` for a TRANSCRIPT entry whose download returns 200,
`chat.txt` for such a CHAT entry; other file types are skipped. -/
def writtenFiles (files : List Zoom.RecFile) : List (List Char) :=
  files.filterMap (fun f =>
    if f.file_type = ("TRANSCRIPT").toList then
      if f.downloadOk then some (("transcript.vtt").toList) else none
    else if f.file_type = ("CHAT").toList then
      if f.downloadOk then some (("chat.txt").toList) else none
    else none)

/-- The `metadata.json` contents. -/
structure Metadata where
  meeting_id : List Char
  topic : List Char
  meeting_type : List Char
  meeting_number : Option (List Char)
  start_time : List Char
  duration_minutes : Option Int
  files : List (List Char)
deriving DecidableEq, Repr

/-- The filesystem effect of `download_meeting_artifacts`: the folder created,
the artifact files written into it, and the metadata sidecar. -/
structure DownloadResult where
  folder_path : List Char
  files_written : List (List Char)
  metadata : Metadata
deriving DecidableEq, Repr

/-- `download_meeting_artifacts`: meeting info from the topic, the number
overridden by a truthy issue number, folder
`<output_dir>/<type>/Call-NNN_<date>` (number zero-padded via `int(...)`,
which raises `ValueError` on a non-numeric number) or `Call_<date>` without a
number; `metadata.json` lists the files in the fresh folder. -/
def download_meeting_artifacts (recording : Zoom.Recording)
    (output_dir : List Char) (override_meeting_num : Option (List Char)) :
    Except PyErr DownloadResult :=
  let topic := recording.topic
  let em := extract_meeting_info topic
  let meeting_type := em.1
  let meeting_num :=
    match override_meeting_num with
    | some o => if o ≠ [] then some o else em.2
    | none => em.2
  let meeting_date := recording.start_time.takeWhile (fun c => c ≠ 'T')
  let mkRes := fun (folder_name : List Char) =>
    let folder_path := output_dir ++ '/' :: meeting_type ++ '/' :: folder_name
    let written := writtenFiles recording.recording_files
    DownloadResult.mk folder_path written
      { meeting_id := recording.matched_meeting_id.getD recording.id,
        topic := topic,
        meeting_type := meeting_type,
        meeting_number := meeting_num,
        start_time := recording.start_time,
        duration_minutes := recording.duration,
        files := written.dedup }
  match meeting_num with
  | some n =>
    match pyInt n with
    | none => .error .valueError
    | some k => .ok (mkRes (("Call-").toList ++ pad3 k ++ '_' :: meeting_date))
  | none => .ok (mkRes (("Call_").toList ++ meeting_date))

end DL

/-! ### `github_uploader.py` -/

namespace GH

/-- The kinds of hosting-API requests `batch_upload_to_github` can issue
(the function issues no delete or rollback request of any kind). -/
inductive ApiCall where
  | repoCheck
  | refGet
  | commitGet
  | treePost
  | commitPost
  | refPatch
deriving DecidableEq, Repr

/-- HTTP status codes returned by each step, were it to be issued. -/
structure ApiOutcomes where
  repoCheck : Nat
  refGet : Nat
  commitGet : Nat
  treePost : Nat
  commitPost : Nat
  refPatch : Nat
deriving DecidableEq, Repr

/-- The request sequence of a fully successful upload, in program order. -/
def fullCallSeq : List ApiCall :=
  [.repoCheck, .refGet, .commitGet, .treePost, .commitPost, .refPatch]

/-- The `uploaded_files` list built by the tree loop: the readable files of
every folder, in traversal order (unreadable files are skipped with
`continue`). -/
def uploadedFiles (folders : List (List (List Char × Bool))) :
    List (List Char) :=
  (folders.map (fun fs => (fs.filter (fun f => f.2)).map (fun f => f.1))).flatten

/-- `batch_upload_to_github`: returns the uploaded paths and the trace of
requests issued.  `folders` carries, per folder, the files found by `rglob`
as (repo path, readable) pairs — an unreadable file is skipped (`continue`).
A network exception at any step is caught and handled like its non-2xx case.
The repo check and the two GET steps demand 200; tree and commit creation
demand 201; the branch-ref PATCH demands 200; any other status aborts with an
empty result, issuing no further request. -/
def batch_upload_to_github (tokenPresent : Bool)
    (folders : List (List (List Char × Bool))) (o : ApiOutcomes) :
    List (List Char) × List ApiCall :=
  if tokenPresent = false then ([], [])
  else if o.repoCheck ≠ 200 then ([], fullCallSeq.take 1)
  else if o.refGet ≠ 200 then ([], fullCallSeq.take 2)
  else if o.commitGet ≠ 200 then ([], fullCallSeq.take 3)
  else if uploadedFiles folders = [] then ([], fullCallSeq.take 3)
  else if o.treePost ≠ 201 then ([], fullCallSeq.take 4)
  else if o.commitPost ≠ 201 then ([], fullCallSeq.take 5)
  else if o.refPatch ≠ 200 then ([], fullCallSeq)
  else (uploadedFiles folders, fullCallSeq)

end GH

/-! ### `main.py` (`get_meeting_key`) -/

namespace MainPy

/-- Python `f"{x}"` of an integer. -/
def renderInt (n : Int) : List Char :=
  if n < 0 then '-' :: (Int.natAbs n).repr.toList else n.natAbs.repr.toList

/-- Python `f"{x}"` of `issue.get("number")` (`None` renders as `"None"`). -/
def renderOptInt : Option Int → List Char
  | none => ("None").toList
  | some n => renderInt n

/-- `get_meeting_key`:
`f"{info.get('issue_number')}_{info.get('closed_at', '')[:10]}"`.
`parse_issue_for_meeting_info` always stores the `closed_at` key, so the `.get`
default never applies; when the stored value is JSON null (`None`),
`None[:10]` raises `TypeError`. -/
def get_meeting_key (info : PM.MeetingInfo) : Except PyErr (List Char) :=
  match info.closed_at with
  | some s => .ok (renderOptInt info.issue_number ++ '_' :: s.take 10)
  | none => .error .typeError

/-- A concrete open issue (for the C10 witness): state `open`, `closed_at`
null, a whitelisted meeting name and an ISO date in the title. -/
def issueOpenW : PM.Issue :=
  { number := some 1700,
    title := ("FOCIL breakout 2025-10-06").toList,
    body := none,
    closed_at := none,
    state := ("open").toList }

/-- The meeting info `parse_issue_for_meeting_info` produces for
`issueOpenW`. -/
def infoOpenW : PM.MeetingInfo :=
  { possible_meeting_ids := [("842 6574 5580").toList],
    meeting_name := ("FOCIL").toList,
    meeting_number := none,
    date_str := some (("2025-10-06").toList),
    issue_number := some 1700,
    issue_title := ("FOCIL breakout 2025-10-06").toList,
    closed_at := none,
    owners := [("Nico").toList] }

/-- `datetime.now()` for the C10 witness: 2025-10-07 00:00. -/
def nowW : Int := PM.dtMinutes 2025 10 7 0

/-! #### The processed-meetings cache file

`save_processed_meetings_cache` writes `json.dump(cache, f, indent=2)` to
`processed_meetings.json`; `get_processed_meetings_cache` reads the same path
with `json.load`.  The cache built by `main.py` is a dict from string keys to
dicts of string-or-null fields, so the serializer below is `json.dump` on that
shape (`ensure_ascii` escaping included) and the parser is `json.load`
restricted to the same grammar (strings, `null`, two object levels,
whitespace-tolerant; `json.load` raises on other input, modelled `none`). -/

/-- One cache entry: field name to string-or-null (`None`) value. -/
abbrev CacheEntry := List (List Char × Option (List Char))

/-- The cache: issue-key to entry, in insertion order. -/
abbrev Cache := List (List Char × CacheEntry)

/-- Lowercase hex digit. -/
def hexDigitChar (n : Nat) : Char :=
  if n < 10 then Char.ofNat (48 + n) else Char.ofNat (87 + n)

/-- Four lowercase hex digits of `n < 0x10000` (the `\uXXXX` body). -/
def hex4 (n : Nat) : List Char :=
  [hexDigitChar (n / 4096 % 16), hexDigitChar (n / 256 % 16),
   hexDigitChar (n / 16 % 16), hexDigitChar (n % 16)]

/-- `json.dump` escaping of one character (`ensure_ascii=True`): the short
escapes, `\u00XX` for other control characters, printable ASCII verbatim,
`\uXXXX` for other BMP code points, and a surrogate pair beyond the BMP. -/
def escapeChar (c : Char) : List Char :=
  if c = '"' then ['\\', '"']
  else if c = '\\' then ['\\', '\\']
  else if c = '\n' then ['\\', 'n']
  else if c = '\t' then ['\\', 't']
  else if c = '\r' then ['\\', 'r']
  else if c.toNat = 8 then ['\\', 'b']
  else if c.toNat = 12 then ['\\', 'f']
  else if c.toNat < 32 then '\\' :: 'u' :: hex4 c.toNat
  else if c.toNat < 127 then [c]
  else if c.toNat < 65536 then '\\' :: 'u' :: hex4 c.toNat
  else
    ('\\' :: 'u' :: hex4 (55296 + (c.toNat - 65536) / 1024)) ++
      ('\\' :: 'u' :: hex4 (56320 + (c.toNat - 65536) % 1024))

/-- A JSON string literal: quote, escaped characters, quote. -/
def printString (s : List Char) : List Char :=
  '"' :: (s.map escapeChar).flatten ++ ['"']

/-- A string-or-null value. -/
def dumpStrOrNull : Option (List Char) → List Char
  | none => ("null").toList
  | some s => printString s

/-- Join with a separator. -/
def joinSep (sep : List Char) : List (List Char) → List Char
  | [] => []
  | [x] => x
  | x :: y :: rest => x ++ sep ++ joinSep sep (y :: rest)

/-- One `"field": value` pair of an inner object. -/
def printField (f : List Char × Option (List Char)) : List Char :=
  printString f.1 ++ ':' :: ' ' :: dumpStrOrNull f.2

/-- An inner object at `indent=2`, nesting depth 2. -/
def dumpInner : CacheEntry → List Char
  | [] => ("\x7b\x7d").toList
  | f :: fs =>
    ("\x7b\n    ").toList ++
      joinSep ((",\n    ").toList) ((f :: fs).map printField) ++
      ("\n  \x7d").toList

/-- One `"key": {...}` pair of the top-level object. -/
def printEntry (kv : List Char × CacheEntry) : List Char :=
  printString kv.1 ++ ':' :: ' ' :: dumpInner kv.2

/-- `json.dump(cache, f, indent=2)`: the exact file contents written. -/
def dumpCache : Cache → List Char
  | [] => ("\x7b\x7d").toList
  | kv :: rest =>
    ("\x7b\n  ").toList ++
      joinSep ((",\n  ").toList) ((kv :: rest).map printEntry) ++
      ("\n\x7d").toList

/-- JSON whitespace. -/
def jsonWs (c : Char) : Bool := c = ' ' || c = '\t' || c = '\n' || c = '\r'

/-- Skip JSON whitespace. -/
def skipWs (t : List Char) : List Char := t.dropWhile jsonWs

/-- Hex-digit test (JSON `\uXXXX` accepts either case). -/
def isHexDigit (c : Char) : Bool :=
  c.isDigit || ('a' ≤ c && c ≤ 'f') || ('A' ≤ c && c ≤ 'F')

/-- Hex-digit value. -/
def hexVal (c : Char) : Nat :=
  if c.isDigit then c.toNat - 48
  else if 'a' ≤ c && c ≤ 'f' then c.toNat - 87
  else c.toNat - 55

/-- Short escapes accepted after a backslash. -/
def unescapeChar : Char → Option Char
  | '"' => some '"'
  | '\\' => some '\\'
  | '/' => some '/'
  | 'b' => some (Char.ofNat 8)
  | 'f' => some (Char.ofNat 12)
  | 'n' => some '\n'
  | 'r' => some '\r'
  | 't' => some '\t'
  | _ => none

/-- Hex quad of a `\uXXXX` escape: its value and the rest of the input. -/
def parseHex4 : List Char → Option (Nat × List Char)
  | a :: b :: c :: d :: r =>
    if isHexDigit a && isHexDigit b && isHexDigit c && isHexDigit d then
      some (hexVal a * 4096 + hexVal b * 256 + hexVal c * 16 + hexVal d, r)
    else none
  | _ => none

/-- A JSON string body after the opening quote: literal characters (raw
control characters are rejected, `json.load` strict mode), short escapes, and
`\uXXXX` with surrogate-pair recombination.  A lone surrogate is rejected:
Lean's `Char` cannot carry one, and the serializer never emits one. -/
def parseStringBody : List Char → Option (List Char × List Char)
  | [] => none
  | c :: rest =>
    if c = '"' then some ([], rest)
    else if c = '\\' then
      match rest with
      | [] => none
      | e :: r2 =>
        if e = 'u' then
          match hh : parseHex4 r2 with
          | none => none
          | some (h, r3) =>
            if 55296 ≤ h ∧ h ≤ 56319 then
              match r3 with
              | '\\' :: 'u' :: r4 =>
                match hl : parseHex4 r4 with
                | none => none
                | some (l, r5) =>
                  if 56320 ≤ l ∧ l ≤ 57343 then
                    (parseStringBody r5).map (fun p =>
                      (Char.ofNat (65536 + (h - 55296) * 1024 + (l - 56320)) ::
                        p.1, p.2))
                  else none
              | _ => none
            else if 56320 ≤ h ∧ h ≤ 57343 then none
            else (parseStringBody r3).map (fun p => (Char.ofNat h :: p.1, p.2))
        else
          (unescapeChar e).bind fun u =>
            (parseStringBody r2).map (fun p => (u :: p.1, p.2))
    else if c.toNat < 32 then none
    else (parseStringBody rest).map (fun p => (c :: p.1, p.2))
termination_by t => t.length
decreasing_by
  all_goals
    first
      | omega
      | (simp only [List.length_cons]
         omega)
      | (have h4 := hh
         have h5 := hl
         unfold parseHex4 at h4 h5
         split at h4 <;> try split at h4
         all_goals try cases h4
         all_goals split at h5 <;> try split at h5
         all_goals try cases h5
         all_goals simp only [List.length_cons] at *
         all_goals omega)
      | (have h4 := hh
         unfold parseHex4 at h4
         split at h4 <;> try split at h4
         all_goals try cases h4
         all_goals simp only [List.length_cons] at *
         all_goals omega)

/-- A string-or-null value. -/
def parseStrOrNull (t : List Char) : Option (Option (List Char) × List Char) :=
  match t with
  | '"' :: rest => (parseStringBody rest).map (fun p => (some p.1, p.2))
  | 'n' :: 'u' :: 'l' :: 'l' :: rest => some (none, rest)
  | _ => none

/-- The field list of a non-empty inner object (fuel bounds the number of
fields; any input has more characters than fields). -/
def parseFieldsAux : Nat → List Char → Option (CacheEntry × List Char)
  | 0, _ => none
  | fuel + 1, t =>
    match skipWs t with
    | '"' :: r =>
      (parseStringBody r).bind fun kp =>
        match skipWs kp.2 with
        | ':' :: r3 =>
          (parseStrOrNull (skipWs r3)).bind fun vp =>
            match skipWs vp.2 with
            | ',' :: r5 =>
              (parseFieldsAux fuel r5).map
                (fun p => ((kp.1, vp.1) :: p.1, p.2))
            | '}' :: r5 => some ([(kp.1, vp.1)], r5)
            | _ => none
        | _ => none
    | _ => none

/-- An inner object. -/
def parseInnerObj (t : List Char) : Option (CacheEntry × List Char) :=
  match skipWs t with
  | '{' :: r =>
    match skipWs r with
    | '}' :: r2 => some ([], r2)
    | r2 => parseFieldsAux (r2.length + 1) r2
  | _ => none

/-- The entry list of a non-empty top-level object. -/
def parseEntriesAux : Nat → List Char → Option (Cache × List Char)
  | 0, _ => none
  | fuel + 1, t =>
    match skipWs t with
    | '"' :: r =>
      (parseStringBody r).bind fun kp =>
        match skipWs kp.2 with
        | ':' :: r3 =>
          (parseInnerObj r3).bind fun vp =>
            match skipWs vp.2 with
            | ',' :: r5 =>
              (parseEntriesAux fuel r5).map
                (fun p => ((kp.1, vp.1) :: p.1, p.2))
            | '}' :: r5 => some ([(kp.1, vp.1)], r5)
            | _ => none
        | _ => none
    | _ => none

/-- `json.load` on the cache grammar: one top-level object, nothing after it. -/
def json_loads_cache (t : List Char) : Option Cache :=
  match skipWs t with
  | '{' :: r =>
    match skipWs r with
    | '}' :: r2 => if skipWs r2 = [] then some [] else none
    | r2 =>
      (parseEntriesAux (r2.length + 1) r2).bind fun p =>
        if skipWs p.2 = [] then some p.1 else none
  | _ => none

/-- `save_processed_meetings_cache`: the contents written to
`processed_meetings.json`. -/
def save_processed_meetings_cache (cache : Cache) : List Char :=
  dumpCache cache

/-- `get_processed_meetings_cache` applied to an existing cache file with the
given contents. -/
def get_processed_meetings_cache (fileContent : List Char) : Option Cache :=
  json_loads_cache fileContent

end MainPy

/-- The download result of the C5 scenario, as a function of the recording's
symbolic parts (id, matched id, start time) and of the extracted date. -/
def c5Result (rid : List Char) (mm : Option (List Char))
    (startTime dateStr : List Char) : DL.DownloadResult :=
  { folder_path := ("downloads").toList ++ '/' :: ("ACDT").toList ++ '/' ::
      (("Call-").toList ++ pad3 56 ++ '_' :: dateStr),
    files_written := [("transcript.vtt").toList, ("chat.txt").toList],
    metadata :=
      { meeting_id := mm.getD rid,
        topic := ("All Core Devs - Testing (ACDT) #56").toList,
        meeting_type := ("ACDT").toList,
        meeting_number := some (("56").toList),
        start_time := startTime,
        duration_minutes := some 45,
        files := [("transcript.vtt").toList, ("chat.txt").toList] } }

/-! ### `scripts/generate_readme_table.py`

`update_readme_table` reads `README.md`, finds the table that follows the
`# ACD calls` heading with the regex
`# ACD calls\s*\n\n\|[^\n]+\|\n\| ---[^\n]+\|\n` (and, for
`parse_existing_meetings`, a trailing `((?:\|[^\n]+\|\n)*)` row group), loads
`processed_meetings.json`, and prepends one generated row per cached ACD
meeting that is not in the table yet.  Network reads (the forkcast calls file
and the per-issue links) are oracles passed in as values; the README and the
cache file contents are explicit arguments; writing the README is the second
component of the returned pair.  A `None` result models an uncaught exception
(the `int(num)` call in `generate_row` is the one partial operation).
`datetime.timestamp()` of the naive parsed date is modelled at UTC (the
ordering of distinct dates does not depend on the zone). -/

namespace RT

/-- The literal `# ACD calls` of both table regexes. -/
def litHeader : List Char := ("# ACD calls").toList

/-- One line of input: the text before the first newline and the text after
it; `none` when no newline remains (the row regex requires the newline). -/
def takeLine : List Char → Option (List Char × List Char)
  | [] => none
  | c :: r =>
    if c = '\n' then some ([], r)
    else (takeLine r).map (fun p => (c :: p.1, p.2))

/-- A newline-free line matching `\|[^\n]+\|`: starts and ends with a pipe
with at least one character between. -/
def rowLineOk (l : List Char) : Bool :=
  3 ≤ l.length && l.headD ' ' = '|' && l.getLastD ' ' = '|'

/-- A newline-free line matching `\| ---[^\n]+\|`. -/
def sepLineOk (l : List Char) : Bool :=
  l.take 5 = ("| ---").toList && 7 ≤ l.length && l.getLastD ' ' = '|'

/-- The mandatory part of the table regex anchored at the start of `t`:
the literal, `\s*\n\n` (the greedy `\s*` forces the whitespace run after the
literal to end in two newlines, with the following line right after), a table
row and the `---` separator row.  Returns the matched length. -/
def matchHeaderAt (t : List Char) : Option Nat :=
  if t.take 11 = litHeader then
    let after := t.drop 11
    let L := (after.takeWhile isPySpace).length
    if 2 ≤ L && (after.drop (L - 2)).take 2 = ['\n', '\n'] then
      match takeLine (after.drop L) with
      | none => none
      | some (l1, r1) =>
        if rowLineOk l1 then
          match takeLine r1 with
          | none => none
          | some (l2, _) =>
            if sepLineOk l2 then
              some (11 + L + (l1.length + 1) + (l2.length + 1))
            else none
        else none
    else none
  else none

/-- `re.search` scan: the end index of the leftmost match of the header
pattern. -/
def findHeaderEndAux : List Char → Nat → Option Nat
  | [], pos =>
    match matchHeaderAt [] with
    | some len => some (pos + len)
    | none => none
  | c :: r, pos =>
    match matchHeaderAt (c :: r) with
    | some len => some (pos + len)
    | none => findHeaderEndAux r (pos + 1)

/-- End index of the leftmost header match in `content`. -/
def findHeaderEnd (content : List Char) : Option Nat := findHeaderEndAux content 0

/-- The greedy row group `((?:\|[^\n]+\|\n)*)` after the header: consecutive
newline-terminated row lines (fuel-bounded recursion; one line consumes at
least one character, so `length + 1` fuel always suffices). -/
def collectRowLinesAux : Nat → List Char → List (List Char)
  | 0, _ => []
  | fuel + 1, t =>
    match takeLine t with
    | none => []
    | some (l, r) => if rowLineOk l then l :: collectRowLinesAux fuel r else []

/-- The row lines of the matched table block. -/
def collectRowLines (t : List Char) : List (List Char) :=
  collectRowLinesAux (t.length + 1) t

/-- The meeting types `parse_existing_meetings` accepts. -/
def rowTypes : List (List Char) :=
  [("ACDE").toList, ("ACDC").toList, ("ACDT").toList]

/-- The meeting types the update loop accepts (same set, source order). -/
def updTypes : List (List Char) :=
  [("ACDE").toList, ("ACDT").toList, ("ACDC").toList]

/-- One row line to its `(type, num)` pair: split on pipes, strip the parts,
keep the pair when there are at least 4 parts, the type is an ACD type and the
number is all digits. -/
def rowPair (l : List Char) : Option (List Char × List Char) :=
  let parts := (l.splitOn '|').map pyStrip
  if 4 ≤ parts.length then
    let ty := parts.getD 2 []
    let num := parts.getD 3 []
    if decide (ty ∈ rowTypes) && pyIsDigit num then some (ty, num) else none
  else none

/-- `parse_existing_meetings`: the `(type, num)` pairs of the rows following
the leftmost header match (the Python set, as a list used for membership). -/
def parse_existing_meetings (content : List Char) : List (List Char × List Char) :=
  match findHeaderEnd content with
  | none => []
  | some he => (collectRowLines (content.drop he)).filterMap rowPair

/-- `data.get(k)` on a cache entry: `none` when the field is absent, else the
stored string-or-null value (cache entries written by this pipeline have
unique field names, so first-found lookup is the dict lookup). -/
def entGet (data : MainPy.CacheEntry) (k : List Char) : Option (Option (List Char)) :=
  (data.find? (fun f => f.1 = k)).map (fun f => f.2)

/-- One element of the `new_meetings` list. -/
structure NewMeeting where
  mtype : List Char
  num : List Char
  date : Option (List Char)
  issue_num : List Char
deriving DecidableEq, Repr

/-- The meeting a cache item contributes before the `not in existing` check:
`meeting_type` must be one of the ACD types (`get` default `''`; a stored
`null` is `None` and never in the list), `meeting_num` must be truthy; the
date is `data.get('date')` and the issue number the key up to the first
underscore. -/
def candMeeting (kv : List Char × MainPy.CacheEntry) : Option NewMeeting :=
  match (match entGet kv.2 (("meeting_type").toList) with
         | none => some []
         | some v => v) with
  | none => none
  | some ty =>
    if decide (ty ∈ updTypes) then
      match entGet kv.2 (("meeting_num").toList) with
      | none => none
      | some none => none
      | some (some n) =>
        if n = [] then none
        else some { mtype := ty, num := n,
                    date := (entGet kv.2 (("date").toList)).join,
                    issue_num := ((kv.1).splitOn '_').headD [] }
    else none

/-- One step of the `new_meetings` loop: the candidate whose `(type, num)`
pair is not in the existing set. -/
def meetingOfEntry (existing : List (List Char × List Char))
    (kv : List Char × MainPy.CacheEntry) : Option NewMeeting :=
  (candMeeting kv).bind fun m =>
    if (m.mtype, m.num) ∈ existing then none else some m

/-- The sort key: minus the timestamp of the parsed `%Y-%m-%d` date (modelled
at UTC), `0` when the date is `None` or unparseable (the bare `except`). -/
def meetingSortKey (m : NewMeeting) : Int :=
  match m.date with
  | none => 0
  | some d =>
    match strptimeYmd fmtYmd d with
    | none => 0
    | some (y, mo, da) => -(86400 * daysFromCivil y mo da)

/-- Stable insertion into an ascending-by-key list (before the first element
with a key not smaller: Python sort stability). -/
def insertByKey (key : NewMeeting → Int) (x : NewMeeting) :
    List NewMeeting → List NewMeeting
  | [] => [x]
  | y :: ys => if key y < key x then y :: insertByKey key x ys else x :: y :: ys

/-- Python `list.sort(key=...)`: stable ascending. -/
def sortByKeyAsc (key : NewMeeting → Int) : List NewMeeting → List NewMeeting
  | [] => []
  | x :: xs => insertByKey key x (sortByKeyAsc key xs)

/-- `str.zfill(3)`. -/
def zfill3 (s : List Char) : List Char :=
  if 3 ≤ s.length then s
  else
    match s with
    | c :: rest =>
      if c = '-' ∨ c = '+' then c :: (List.replicate (2 - rest.length) '0' ++ rest)
      else List.replicate (3 - s.length) '0' ++ s
    | [] => List.replicate 3 '0'

/-- `strftime` `%d`: zero-padded day. -/
def pad2 (n : Nat) : List Char :=
  if n < 10 then '0' :: (Nat.repr n).toList else (Nat.repr n).toList

/-- `strftime` `%b` month abbreviations. -/
def monthAbbrsCap : List (List Char) :=
  [("Jan").toList, ("Feb").toList, ("Mar").toList, ("Apr").toList,
   ("May").toList, ("Jun").toList, ("Jul").toList, ("Aug").toList,
   ("Sep").toList, ("Oct").toList, ("Nov").toList, ("Dec").toList]

/-- `date_obj.strftime('%d %b %Y')`. -/
def fmtDbYout (y mo da : Nat) : List Char :=
  pad2 da ++ ' ' :: (monthAbbrsCap.getD (mo - 1) []) ++ ' ' :: (Nat.repr y).toList

/-- Forkcast dict lookup (keys are unique `(type, num)` pairs; the value kept
is the call url). -/
def lookupFk (fk : List ((List Char × List Char) × List Char))
    (k : List Char × List Char) : Option (List Char) :=
  (fk.find? (fun e => e.1 = k)).map (fun e => e.2)

/-- `generate_row`: the markdown row for one new meeting; `none` when
`int(num)` raises.  `links` is the `fetch_links_from_issue` oracle (it returns
`(None, None)` for an empty issue number). -/
def generate_row (fk : List ((List Char × List Char) × List Char))
    (links : List Char → Option (List Char) × Option (List Char))
    (owner repo : List Char) (m : NewMeeting) : Option (List Char) :=
  let formatted :=
    match m.date with
    | none => ("-").toList
    | some d =>
      if d = [] then ("-").toList
      else
        match strptimeYmd fmtYmd d with
        | some (y, mo, da) => fmtDbYout y mo da
        | none => d
  let issue_link :=
    if m.issue_num = [] then ("-").toList
    else ("[#").toList ++ m.issue_num ++
      ("](https://github.com/ethereum/pm/issues/").toList ++ m.issue_num ++
      (")").toList
  let ls := if m.issue_num = [] then (none, none) else links m.issue_num
  let summary :=
    match lookupFk fk (m.mtype, m.num) with
    | some url => ("[forkcast](").toList ++ url ++ (")").toList
    | none =>
      if m.mtype = ("ACDT").toList ∧ m.num.length < 3 then
        match lookupFk fk (m.mtype, zfill3 m.num) with
        | some url => ("[forkcast](").toList ++ url ++ (")").toList
        | none => ("-").toList
      else ("-").toList
  let discussion :=
    match ls.2 with
    | some u => if u = [] then ("-").toList else ("[EthMag](").toList ++ u ++ (")").toList
    | none => ("-").toList
  let recording :=
    match ls.1 with
    | some u => if u = [] then ("-").toList else ("[video](").toList ++ u ++ (")").toList
    | none => ("-").toList
  match pyInt m.num with
  | none => none
  | some n =>
    let folder := ("Call-").toList ++ pad3 n ++
      '_' :: (match m.date with | none => ("None").toList | some d => d)
    let logs := ("[logs](https://github.com/").toList ++ owner ++ '/' :: repo ++
      ("/tree/main/").toList ++ m.mtype ++ '/' :: folder ++ (")").toList
    some (('|' :: ' ' :: formatted) ++ (' ' :: '|' :: ' ' :: m.mtype) ++
      (' ' :: '|' :: ' ' :: m.num) ++ (' ' :: '|' :: ' ' :: issue_link) ++
      (' ' :: '|' :: ' ' :: summary) ++ (' ' :: '|' :: ' ' :: discussion) ++
      (' ' :: '|' :: ' ' :: recording) ++ (' ' :: '|' :: ' ' :: logs) ++
      [' ', '|'])

/-- `update_readme_table` on explicit README and cache contents: `(False,
unchanged)` when there is nothing to add or the header is not found, `(True,
README with the joined new rows inserted at the header match end)` otherwise;
`none` when a row generation raises.  Rows are generated before the insertion
search, as in the source. -/
def update_readme_table (readme : List Char) (processed : MainPy.Cache)
    (fk : List ((List Char × List Char) × List Char))
    (links : List Char → Option (List Char) × Option (List Char))
    (owner repo : List Char) : Option (Bool × List Char) :=
  let existing := parse_existing_meetings readme
  let newMs := processed.filterMap (meetingOfEntry existing)
  if newMs = [] then some (false, readme)
  else
    match (sortByKeyAsc meetingSortKey newMs).mapM
        (generate_row fk links owner repo) with
    | none => none
    | some rows =>
      match findHeaderEnd readme with
      | none => some (false, readme)
      | some he =>
        some (true, readme.take he ++ MainPy.joinSep ['\n'] rows ++
          '\n' :: readme.drop he)


/-- Well-formedness of one cache item for the idempotence claim: a stored
meeting number is all digits, a stored date is empty or a valid `%Y-%m-%d`
string, and the issue-number part of the key has no newline. -/
def wfEntry (kv : List Char × MainPy.CacheEntry) : Prop :=
  (∀ n, entGet kv.2 (("meeting_num").toList) = some (some n) → n ≠ [] →
    pyIsDigit n = true) ∧
  (∀ d, (entGet kv.2 (("date").toList)).join = some d →
    d = [] ∨ ((strptimeYmd fmtYmd d).isSome ∧ '\n' ∉ d)) ∧
  '\n' ∉ ((kv.1).splitOn '_').headD []

end RT


/-- README of the C7 and C8 witnesses. -/
def c7Readme : List Char := ("# ACD calls\n\n| h |\n| ---s|\n").toList

/-- Cache of the C7 and C8 witnesses: one ACDT meeting not yet in the table. -/
def c7Cache : MainPy.Cache :=
  [(("100_2025-09-26").toList,
    [(("meeting_type").toList, some (("ACDT").toList)),
     (("meeting_num").toList, some (("56").toList)),
     (("date").toList, some (("2025-09-26").toList))])]

/-- The updated README of the C7 and C8 witnesses. -/
def c7Out : List Char :=
  ("# ACD calls\n\n| h |\n| ---s|\n| 26 Sep 2025 | ACDT | 56 | [#100](https://github.com/ethereum/pm/issues/100) | - | - | - | [logs](https://github.com/o/r/tree/main/ACDT/Call-056_2025-09-26) |\n").toList

end EthPT

/-!
## Theorems

Helper lemmas first, then one theorem per claim (with witnesses and
counterexamples where required).
-/

namespace EthPT

namespace Zoom

/-- Unfolding the Python `max` fold over a cons cell. -/
theorem pyMaxFold_cons (x m : Recording) (xs : List Recording) :
    pyMaxFold x (m :: xs) =
      if durD m > durD x then pyMaxFold m xs else pyMaxFold x xs := by
  simp only [pyMaxFold, List.foldl_cons]
  by_cases h : durD m > durD x <;> simp [h]

/-- The fold result dominates its seed. -/
theorem le_pyMaxFold (xs : List Recording) (x : Recording) :
    durD x ≤ durD (pyMaxFold x xs) := by
  induction xs generalizing x with
  | nil => simp [pyMaxFold]
  | cons m xs ih =>
    rw [pyMaxFold_cons]
    by_cases h : durD m > durD x
    · simpa [h] using le_trans (le_of_lt h) (ih m)
    · simpa [h] using ih x

/-- Key fold lemma: the Python `max` fold returns an element of the list that is
strictly larger than everything before it and at least as large as everything
after it (ties go to the first-encountered element). -/
theorem pyMaxFold_spec (xs : List Recording) (x : Recording) :
    ∃ pre suf, x :: xs = pre ++ pyMaxFold x xs :: suf ∧
      (∀ y ∈ pre, durD y < durD (pyMaxFold x xs)) ∧
      (∀ y ∈ suf, durD y ≤ durD (pyMaxFold x xs)) := by
  induction xs generalizing x with
  | nil => exact ⟨[], [], rfl, by simp, by simp⟩
  | cons m xs ih =>
    rw [pyMaxFold_cons]
    by_cases hm : durD m > durD x
    · rw [if_pos hm]
      obtain ⟨pre, suf, hdec, hpre, hsuf⟩ := ih m
      refine ⟨x :: pre, suf, by rw [List.cons_append, ← hdec], ?_, hsuf⟩
      intro y hy
      rcases List.mem_cons.mp hy with h | h
      · subst h
        exact lt_of_lt_of_le hm (le_pyMaxFold xs m)
      · exact hpre y h
    · rw [if_neg hm]
      obtain ⟨pre, suf, hdec, hpre, hsuf⟩ := ih x
      rcases pre with _ | ⟨p, ps⟩
      · obtain ⟨hx, hsufeq⟩ := List.cons.inj (by simpa using hdec)
        refine ⟨[], m :: suf, ?_, by simp, ?_⟩
        · rw [List.nil_append, ← hx, hsufeq]
        · intro y hy
          rcases List.mem_cons.mp hy with h | h
          · subst h
            rw [← hx]
            exact le_of_not_lt hm
          · exact hsuf y h
      · obtain ⟨hx, hxs⟩ := List.cons.inj (by simpa using hdec)
        refine ⟨x :: m :: ps, suf, ?_, ?_, hsuf⟩
        · simp only [List.cons_append]
          rw [← hxs]
        · intro y hy
          have hplt : durD p < durD (pyMaxFold x xs) := hpre p (by simp)
          rcases List.mem_cons.mp hy with h | h
          · exact lt_of_le_of_lt (le_of_eq (by rw [h, hx])) hplt
          · rcases List.mem_cons.mp h with h2 | h2
            · subst h2
              have h1 : durD y ≤ durD x := le_of_not_lt hm
              have h2 : durD x = durD p := by rw [hx]
              exact lt_of_le_of_lt (h2 ▸ h1) hplt
            · exact hpre y (by simp [h2])

/-- Membership in the matching filter forces a cleaned-id hit. -/
theorem mem_matchingRecordings (ids : List (List Char)) (all : List Recording)
    (m : Recording) (hm : m ∈ matchingRecordings ids all) :
    cleanId m.id ∈ ids.map cleanId := by
  simp only [matchingRecordings, List.mem_filterMap] at hm
  obtain ⟨a, _, ha⟩ := hm
  by_cases hc : (ids.map cleanId).contains (cleanId a.id)
  · rw [if_pos hc] at ha
    have hid : m.id = a.id := by
      rw [← Option.some.inj ha]
    rw [hid]
    exact List.mem_of_elem_eq_true hc
  · rw [if_neg hc] at ha
    exact Option.noConfusion ha

/-- Errors and stream ends keep only the pages fetched before them: everything
after the first failed request is never fetched. -/
theorem processHostPages_stops_at_fail (email : List Char) (pre : List PageResp)
    (code : Nat) (rest : List PageResp) :
    processHostPages email (pre ++ PageResp.fail code :: rest) =
      processHostPages email (pre ++ [PageResp.fail code]) := by
  induction pre with
  | nil => rfl
  | cons p pre ih =>
    cases p with
    | fail c => rfl
    | ok ms next =>
      simp only [List.cons_append, processHostPages, List.append_eq, ih]

end Zoom

/-- C1: among the candidate recordings whose cleaned id (spaces and dashes
removed) equals one of the (similarly cleaned) requested meeting ids, the
resolver returns the one of maximum `duration`, ties resolved in favour of the
first-encountered candidate in listing order. -/
theorem c1_resolver_picks_first_max_duration
    (hosts : List (List Char × List Zoom.PageResp)) (meeting_ids : List (List Char))
    (hne : Zoom.matchingRecordings meeting_ids
      (Zoom.get_all_recordings_in_range hosts) ≠ []) :
    ∃ r pre suf,
      Zoom.get_recordings_for_meeting_ids true hosts meeting_ids = some r ∧
      Zoom.matchingRecordings meeting_ids (Zoom.get_all_recordings_in_range hosts)
        = pre ++ r :: suf ∧
      (∀ y ∈ pre, Zoom.durD y < Zoom.durD r) ∧
      (∀ y ∈ suf, Zoom.durD y ≤ Zoom.durD r) ∧
      (∀ y ∈ Zoom.matchingRecordings meeting_ids
        (Zoom.get_all_recordings_in_range hosts), Zoom.durD y ≤ Zoom.durD r) ∧
      (∀ y ∈ Zoom.matchingRecordings meeting_ids
        (Zoom.get_all_recordings_in_range hosts),
        Zoom.cleanId y.id ∈ meeting_ids.map Zoom.cleanId) := by
  rcases hmr : Zoom.matchingRecordings meeting_ids
      (Zoom.get_all_recordings_in_range hosts) with _ | ⟨x, xs⟩
  · exact absurd hmr hne
  · obtain ⟨pre, suf, hdec, hpre, hsuf⟩ := Zoom.pyMaxFold_spec xs x
    refine ⟨Zoom.pyMaxFold x xs, pre, suf, ?_, hdec, hpre, hsuf, ?_, ?_⟩
    · simp only [Zoom.get_recordings_for_meeting_ids, hmr]
      rfl
    · intro y hy
      rw [hdec] at hy
      rcases List.mem_append.mp hy with h | h
      · exact le_of_lt (hpre y h)
      · rcases List.mem_cons.mp h with h | h
        · exact le_of_eq (by rw [h])
        · exact hsuf y h
    · intro y hy
      exact Zoom.mem_matchingRecordings meeting_ids _ y (by rw [hmr]; exact hy)

/-- C1 witness: two tied 30-minute matches listed by one host; the resolver
returns the first of them. -/
theorem c1_resolver_picks_first_max_duration_witness :
    (Zoom.matchingRecordings [("123").toList]
      (Zoom.get_all_recordings_in_range
        [(("h").toList,
          [Zoom.PageResp.ok
            (some [Zoom.sampleRec (("1-23").toList) 30,
                   Zoom.sampleRec (("12 3").toList) 30]) false])]) ≠ []) ∧
    (∃ r pre suf,
      Zoom.get_recordings_for_meeting_ids true
        [(("h").toList,
          [Zoom.PageResp.ok
            (some [Zoom.sampleRec (("1-23").toList) 30,
                   Zoom.sampleRec (("12 3").toList) 30]) false])]
        [("123").toList] = some r ∧
      Zoom.matchingRecordings [("123").toList]
        (Zoom.get_all_recordings_in_range
          [(("h").toList,
            [Zoom.PageResp.ok
              (some [Zoom.sampleRec (("1-23").toList) 30,
                     Zoom.sampleRec (("12 3").toList) 30]) false])])
        = pre ++ r :: suf ∧
      (∀ y ∈ pre, Zoom.durD y < Zoom.durD r) ∧
      (∀ y ∈ suf, Zoom.durD y ≤ Zoom.durD r) ∧
      (∀ y ∈ Zoom.matchingRecordings [("123").toList]
        (Zoom.get_all_recordings_in_range
          [(("h").toList,
            [Zoom.PageResp.ok
              (some [Zoom.sampleRec (("1-23").toList) 30,
                     Zoom.sampleRec (("12 3").toList) 30]) false])]),
        Zoom.durD y ≤ Zoom.durD r) ∧
      (∀ y ∈ Zoom.matchingRecordings [("123").toList]
        (Zoom.get_all_recordings_in_range
          [(("h").toList,
            [Zoom.PageResp.ok
              (some [Zoom.sampleRec (("1-23").toList) 30,
                     Zoom.sampleRec (("12 3").toList) 30]) false])]),
        Zoom.cleanId y.id ∈ [("123").toList].map Zoom.cleanId)) :=
  ⟨by decide, c1_resolver_picks_first_max_duration _ _ (by decide)⟩

/-- C2 counterexample: a host whose first recordings page succeeds (with a
next-page token) and whose second page request fails with HTTP 500 still
contributes the recordings of the first page, so an API error does not imply
the no-match outcome: the function can return a recording fetched from the
errored host. -/
theorem c2_counterexample_error_host_still_contributes :
    Zoom.PageResp.fail 500 ∈ Zoom.samplePagesErr ∧
    Zoom.processHostPages (("h").toList) Zoom.samplePagesErr ≠ [] ∧
    Zoom.get_recordings_for_meeting_ids true [(("h").toList, Zoom.samplePagesErr)]
      [("123").toList] ≠ none := by
  refine ⟨by decide, by decide, by decide⟩

/-- C2 (amended): the resolver returns `None` exactly when the date is
unparseable or no listed recording matches a cleaned requested id; a failed
listing request merely ends that host's page loop (keeping recordings from the
pages already fetched), and every outcome is a normal return, never an
exception. -/
theorem c2_amended_none_iff_no_match
    (dateParses : Bool) (hosts : List (List Char × List Zoom.PageResp))
    (meeting_ids : List (List Char)) :
    (Zoom.get_recordings_for_meeting_ids dateParses hosts meeting_ids = none ↔
      dateParses = false ∨
      Zoom.matchingRecordings meeting_ids
        (Zoom.get_all_recordings_in_range hosts) = []) ∧
    (∀ email pre code rest,
      Zoom.processHostPages email (pre ++ Zoom.PageResp.fail code :: rest) =
        Zoom.processHostPages email (pre ++ [Zoom.PageResp.fail code])) := by
  constructor
  · cases dateParses with
    | false => simp [Zoom.get_recordings_for_meeting_ids]
    | true =>
      simp only [Zoom.get_recordings_for_meeting_ids]
      rcases hmr : Zoom.matchingRecordings meeting_ids
          (Zoom.get_all_recordings_in_range hosts) with _ | ⟨x, xs⟩
      · simp [Zoom.pyMaxByDuration, hmr]
      · simp [Zoom.pyMaxByDuration, hmr]
  · exact fun email pre code rest =>
      Zoom.processHostPages_stops_at_fail email pre code rest

/-- The validation loop returns its input whether or not any format parses. -/
theorem validateLoop_id (fs : List (List FTok)) (ds : List Char) :
    validateLoop fs ds = ds := by
  induction fs with
  | nil => rfl
  | cons f fs ih =>
    simp only [validateLoop]
    by_cases h : strptimeOk f ds <;> simp [h, ih]

/-- C4 counterexample: the text `"Protocol 25 2025 on September 26 2025"`
contains a date in a supported format (`"September 26 2025"` parses under
`'%B %d %Y'`), yet `extract_date_from_text` returns `"Protocol 25 2025"` — the
normalized first match of the first pattern — which no format of the fixed
list validates, refuting the claim that the returned string is validated
against the format list whenever the text contains a supported date. -/
theorem c4_counterexample_unvalidated_result :
    extract_date_from_text
        (("Protocol 25 2025 on September 26 2025").toList) =
      some (("Protocol 25 2025").toList) ∧
    (∀ f ∈ test_formats,
      strptimeOk f (("Protocol 25 2025").toList) = false) ∧
    ("Protocol 25 2025 on September 26 2025").toList =
      ("Protocol 25 2025 on ").toList ++ ("September 26 2025").toList ++ [] ∧
    strptimeOk fmtBdY (("September 26 2025").toList) = true ∧
    fmtBdY ∈ test_formats := by
  refine ⟨by decide, by decide, by decide, by decide, by decide⟩

/-- C4 (amended): `extract_date_from_text` returns `None` exactly when none of
the five date patterns matches anywhere in the text; when a pattern matches, it
returns the first match of the earliest pattern, normalized (ordinal suffixes
removed, whitespace runs collapsed, stripped) — returned whether or not any
format of the fixed list validates it, the validation loop never altering the
string. -/
theorem c4_amended_extract_is_normalized_first_match (text : List Char) :
    (extract_date_from_text text = none ↔ datePatternSearch text = none) ∧
    (∀ m, datePatternSearch text = some m →
      extract_date_from_text text = some (normalizeDateStr m)) := by
  constructor
  · constructor
    · intro h
      rcases hs : datePatternSearch text with _ | m
      · rfl
      · simp [extract_date_from_text, hs] at h
    · intro h
      simp [extract_date_from_text, h]
  · intro m hm
    simp [extract_date_from_text, hm, validateLoop_id]

/-- C4 witness: a pattern-3 match is returned normalized. -/
theorem c4_amended_witness :
    extract_date_from_text (("x 2025-10-06").toList) =
      some (normalizeDateStr (("2025-10-06").toList)) :=
  (c4_amended_extract_is_normalized_first_match
    (("x 2025-10-06").toList)).2 (("2025-10-06").toList) (by decide)

/-- Lowercasing-and-despacing is a homomorphism for concatenation. -/
theorem normNS_append (a b : List Char) :
    PM.normNS (a ++ b) = PM.normNS a ++ PM.normNS b := by
  simp [PM.normNS, pyLower]

/-- A whitelist entry whose name matches makes the parse succeed with the
entry's id among the possible ids. -/
theorem parse_some_of_entryMatches (issue : PM.Issue)
    (e : List Char × List Char × List Char) (he : e ∈ WHITELISTED_MEETINGS)
    (hm : PM.entryMatches issue.title e.2.1 = true) :
    ∃ info, PM.parse_issue_for_meeting_info issue = some info ∧
      e.1 ∈ info.possible_meeting_ids := by
  have hmem : e ∈ WHITELISTED_MEETINGS.filter
      (fun x => PM.entryMatches issue.title x.2.1) :=
    List.mem_filter.mpr ⟨he, hm⟩
  rcases hfil : WHITELISTED_MEETINGS.filter
      (fun x => PM.entryMatches issue.title x.2.1) with _ | ⟨m, ms⟩
  · rw [hfil] at hmem
    cases hmem
  · rw [hfil] at hmem
    refine ⟨PM.mkMeetingInfo issue m ms, ?_, ?_⟩
    · simp [PM.parse_issue_for_meeting_info, hfil]
    · simp only [PM.mkMeetingInfo]
      exact List.mem_map_of_mem (fun x => x.1) hmem

/-- C3: a title containing any casing/spacing variant of a whitelisted display
name is matched to that entry: the parse returns a result whose
`possible_meeting_ids` contains the entry's meeting id; and when no whitelist
entry matches the title (under the three containment checks of the source),
the parse returns `None`. -/
theorem c3_whitelist_name_matching (issue : PM.Issue) :
    (∀ e ∈ WHITELISTED_MEETINGS, ∀ A v B,
      issue.title = A ++ v ++ B → PM.normNS v = PM.normNS e.2.1 →
      ∃ info, PM.parse_issue_for_meeting_info issue = some info ∧
        e.1 ∈ info.possible_meeting_ids) ∧
    ((∀ e ∈ WHITELISTED_MEETINGS, PM.entryMatches issue.title e.2.1 = false) →
      PM.parse_issue_for_meeting_info issue = none) := by
  constructor
  · intro e he A v B ht hv
    refine parse_some_of_entryMatches issue e he ?_
    have hinf : PM.normNS e.2.1 <:+: PM.normNS issue.title :=
      ⟨PM.normNS A, PM.normNS B, by rw [ht, normNS_append, normNS_append, hv]⟩
    simp only [PM.entryMatches, pyIn, Bool.or_eq_true, decide_eq_true_eq]
    exact Or.inl (Or.inr hinf)
  · intro hall
    have hfil : WHITELISTED_MEETINGS.filter
        (fun x => PM.entryMatches issue.title x.2.1) = [] := by
      rw [List.filter_eq_nil_iff]
      intro e he
      simp [hall e he]
    simp [PM.parse_issue_for_meeting_info, hfil]

/-- C3 witness: an upper-cased title containing the ACDT display name matches
the ACDT whitelist entry. -/
theorem c3_whitelist_name_matching_witness :
    ∃ info, PM.parse_issue_for_meeting_info
        { number := some 2000,
          title := ("ALL CORE DEVS - TESTING (ACDT) #56").toList,
          body := none,
          closed_at := some (("2025-10-07T01:00:00Z").toList),
          state := ("closed").toList } = some info ∧
      ("842 5123 7513").toList ∈ info.possible_meeting_ids :=
  (c3_whitelist_name_matching _).1
    ((("842 5123 7513").toList, ("All Core Devs - Testing (ACDT)").toList,
      ("Nico").toList))
    (by decide) [] (("ALL CORE DEVS - TESTING (ACDT)").toList)
    ((" #56").toList) (by decide) (by decide)

/-- Splitting a date off a start time at the first `T`. -/
theorem takeWhile_date_T (d rest : List Char) (hd : 'T' ∉ d) :
    (d ++ 'T' :: rest).takeWhile (fun c => c ≠ 'T') = d := by
  induction d with
  | nil => simp
  | cons c cs ih =>
    have hc : c ≠ 'T' := fun h => hd (by simp [h])
    have ih2 := ih (fun h => hd (List.mem_cons_of_mem _ h))
    simpa [List.takeWhile_cons, hc] using ih2

/-- Unfolding the parse when the whitelist filter is non-empty. -/
theorem parse_eq_of_filter_cons (issue : PM.Issue)
    (m : List Char × List Char × List Char)
    (ms : List (List Char × List Char × List Char))
    (hfil : WHITELISTED_MEETINGS.filter
      (fun x => PM.entryMatches issue.title x.2.1) = m :: ms) :
    PM.parse_issue_for_meeting_info issue = some (PM.mkMeetingInfo issue m ms) := by
  unfold PM.parse_issue_for_meeting_info
  rw [hfil]

/-- C5: an issue titled `All Core Devs - Testing (ACDT) #56` parses with
meeting number `56` and the whitelisted ACDT ids among its candidates, and a
matched 45-minute recording (with transcript and chat downloads succeeding)
is saved under `downloads/ACDT/Call-056_<date>/` with `transcript.vtt`,
`chat.txt`, and a metadata sidecar whose `meeting_number` is `"56"`; 45
minutes is not filtered as a short recording. -/
theorem c5_end_to_end_acdt56
    (n : Option Int) (b ca : Option (List Char)) (st : List Char)
    (rid hemail : List Char) (mm : Option (List Char)) (d rest : List Char)
    (hd : 'T' ∉ d) :
    (∃ info, PM.parse_issue_for_meeting_info
        { number := n, title := ("All Core Devs - Testing (ACDT) #56").toList,
          body := b, closed_at := ca, state := st } = some info ∧
      info.meeting_number = some (("56").toList) ∧
      ("842 5123 7513").toList ∈ info.possible_meeting_ids ∧
      ("884 7930 8162").toList ∈ info.possible_meeting_ids) ∧
    (Zoom.durD
        { id := rid, duration := some 45,
          topic := ("All Core Devs - Testing (ACDT) #56").toList,
          start_time := d ++ 'T' :: rest, host_email := hemail,
          matched_meeting_id := mm,
          recording_files :=
            [{ file_type := ("TRANSCRIPT").toList, downloadOk := true },
             { file_type := ("CHAT").toList, downloadOk := true }] } = 45) ∧
    ¬ (Zoom.durD
        { id := rid, duration := some 45,
          topic := ("All Core Devs - Testing (ACDT) #56").toList,
          start_time := d ++ 'T' :: rest, host_email := hemail,
          matched_meeting_id := mm,
          recording_files :=
            [{ file_type := ("TRANSCRIPT").toList, downloadOk := true },
             { file_type := ("CHAT").toList, downloadOk := true }] } < 10) ∧
    (∃ res, DL.download_meeting_artifacts
        { id := rid, duration := some 45,
          topic := ("All Core Devs - Testing (ACDT) #56").toList,
          start_time := d ++ 'T' :: rest, host_email := hemail,
          matched_meeting_id := mm,
          recording_files :=
            [{ file_type := ("TRANSCRIPT").toList, downloadOk := true },
             { file_type := ("CHAT").toList, downloadOk := true }] }
        (("downloads").toList) (some (("56").toList)) = .ok res ∧
      res.folder_path = ("downloads/ACDT/Call-056_").toList ++ d ∧
      res.files_written = [("transcript.vtt").toList, ("chat.txt").toList] ∧
      res.metadata.meeting_number = some (("56").toList) ∧
      res.metadata.files = [("transcript.vtt").toList, ("chat.txt").toList]) := by
  refine ⟨?_, rfl, by simp [Zoom.durD], ?_⟩
  · have hfil : WHITELISTED_MEETINGS.filter
        (fun x => PM.entryMatches
          (("All Core Devs - Testing (ACDT) #56").toList) x.2.1) =
        (("842 5123 7513").toList, ("All Core Devs - Testing (ACDT)").toList,
          ("Nico").toList) ::
        [(("884 7930 8162").toList, ("All Core Devs - Testing (ACDT)").toList,
          ("zoom-bot").toList),
         (("864 6616 9680").toList, ("All Core Devs - Testing (ACDT)").toList,
          ("Matt Garnett").toList)] := by decide
    refine ⟨_, parse_eq_of_filter_cons _ _ _ hfil, ?_, ?_, ?_⟩
    · simp only [PM.mkMeetingInfo]
      decide
    · simp only [PM.mkMeetingInfo]
      decide
    · simp only [PM.mkMeetingInfo]
      decide
  · have hmd := takeWhile_date_T d rest hd
    refine ⟨c5Result rid mm (d ++ 'T' :: rest) d, ?_, rfl, rfl, rfl, rfl⟩
    show Except.ok (c5Result rid mm (d ++ 'T' :: rest)
        ((d ++ 'T' :: rest).takeWhile (fun c => c ≠ 'T'))) =
      Except.ok (c5Result rid mm (d ++ 'T' :: rest) d)
    rw [hmd]

/-- C5 witness: the scenario instantiated at the date `2025-10-06`. -/
theorem c5_end_to_end_acdt56_witness :
    'T' ∉ (("2025-10-06").toList) ∧
    (∃ res, DL.download_meeting_artifacts
        { id := ("123").toList, duration := some 45,
          topic := ("All Core Devs - Testing (ACDT) #56").toList,
          start_time := ("2025-10-06").toList ++ 'T' :: ("14:00:00Z").toList,
          host_email := ("h").toList,
          matched_meeting_id := none,
          recording_files :=
            [{ file_type := ("TRANSCRIPT").toList, downloadOk := true },
             { file_type := ("CHAT").toList, downloadOk := true }] }
        (("downloads").toList) (some (("56").toList)) = .ok res ∧
      res.folder_path = ("downloads/ACDT/Call-056_").toList ++
        ("2025-10-06").toList ∧
      res.files_written = [("transcript.vtt").toList, ("chat.txt").toList] ∧
      res.metadata.meeting_number = some (("56").toList) ∧
      res.metadata.files = [("transcript.vtt").toList, ("chat.txt").toList]) :=
  ⟨by decide,
   (c5_end_to_end_acdt56 (some 1) none none (("open").toList) (("123").toList)
     (("h").toList) none (("2025-10-06").toList) (("14:00:00Z").toList)
     (by decide)).2.2.2⟩

set_option maxHeartbeats 2000000 in
/-- C6: whenever any hosting-API step returns a failing status, the batch
uploader returns an empty list; the requests it has issued are a prefix of the
fixed six-step sequence (repo check, ref get, commit get, tree post, commit
post, ref patch) — nothing is issued after the failing step, and in particular
no rollback or delete request exists among the calls the function can make. -/
theorem c6_upload_fails_closed (tokenPresent : Bool)
    (folders : List (List (List Char × Bool))) (o : GH.ApiOutcomes)
    (hfail : o.repoCheck ≠ 200 ∨ o.refGet ≠ 200 ∨ o.commitGet ≠ 200 ∨
      o.treePost ≠ 201 ∨ o.commitPost ≠ 201 ∨ o.refPatch ≠ 200) :
    (GH.batch_upload_to_github tokenPresent folders o).1 = [] ∧
    (∃ k, (GH.batch_upload_to_github tokenPresent folders o).2 =
      GH.fullCallSeq.take k) ∧
    (∀ c ∈ (GH.batch_upload_to_github tokenPresent folders o).2,
      c ∈ GH.fullCallSeq) := by
  unfold GH.batch_upload_to_github
  split_ifs with h1 h2 h3 h4 h5 h6 h7 h8
  · exact ⟨rfl, ⟨0, rfl⟩, fun c hc => by cases hc⟩
  · exact ⟨rfl, ⟨1, rfl⟩, fun c hc => List.take_subset _ _ hc⟩
  · exact ⟨rfl, ⟨2, rfl⟩, fun c hc => List.take_subset _ _ hc⟩
  · exact ⟨rfl, ⟨3, rfl⟩, fun c hc => List.take_subset _ _ hc⟩
  · exact ⟨rfl, ⟨3, rfl⟩, fun c hc => List.take_subset _ _ hc⟩
  · exact ⟨rfl, ⟨4, rfl⟩, fun c hc => List.take_subset _ _ hc⟩
  · exact ⟨rfl, ⟨5, rfl⟩, fun c hc => List.take_subset _ _ hc⟩
  · exact ⟨rfl, ⟨6, rfl⟩, fun c hc => hc⟩
  · rcases hfail with h | h | h | h | h | h
    · exact absurd h h2
    · exact absurd h h3
    · exact absurd h h4
    · exact absurd h h6
    · exact absurd h h7
    · exact absurd h h8

/-- C6 witness: a tree-creation failure (HTTP 500) after successful repo, ref
and commit reads yields an empty result with only the first four requests
issued. -/
theorem c6_upload_fails_closed_witness :
    (GH.batch_upload_to_github true
      [[(("ACDT/Call-056_2025-10-06/transcript.vtt").toList, true)]]
      ⟨200, 200, 200, 500, 201, 200⟩).1 = [] ∧
    (∃ k, (GH.batch_upload_to_github true
      [[(("ACDT/Call-056_2025-10-06/transcript.vtt").toList, true)]]
      ⟨200, 200, 200, 500, 201, 200⟩).2 = GH.fullCallSeq.take k) ∧
    (∀ c ∈ (GH.batch_upload_to_github true
      [[(("ACDT/Call-056_2025-10-06/transcript.vtt").toList, true)]]
      ⟨200, 200, 200, 500, 201, 200⟩).2, c ∈ GH.fullCallSeq) :=
  c6_upload_fails_closed true _ _ (by decide)

/-- A successful parse copies the issue's `closed_at` into the info dict. -/
theorem parse_preserves_closed_at (issue : PM.Issue) (info : PM.MeetingInfo)
    (h : PM.parse_issue_for_meeting_info issue = some info) :
    info.closed_at = issue.closed_at := by
  unfold PM.parse_issue_for_meeting_info at h
  rcases hfil : WHITELISTED_MEETINGS.filter
      (fun x => PM.entryMatches issue.title x.2.1) with _ | ⟨m, ms⟩
  · rw [hfil] at h
    exact Option.noConfusion h
  · rw [hfil] at h
    have h2 := Option.some.inj h
    rw [← h2]
    rfl

/-- C10: `get_meeting_key` builds `"<issue_number>_<closed_at[:10]>"` when
`closed_at` is a string, and raises `TypeError` (`None[:10]`) when it is
`None`; `parse_issue_for_meeting_info` copies the issue's `closed_at`
unchanged, so every open issue admitted by `get_meetings_ready_to_process`
(whose `closed_at` is `None`) yields a meeting info that cannot be keyed. -/
theorem c10_get_meeting_key_none_type_error :
    (∀ (info : PM.MeetingInfo) (s : List Char), info.closed_at = some s →
      MainPy.get_meeting_key info =
        .ok (MainPy.renderOptInt info.issue_number ++ '_' :: s.take 10)) ∧
    (∀ info : PM.MeetingInfo, info.closed_at = none →
      MainPy.get_meeting_key info = .error PyErr.typeError) ∧
    (∀ (all_issues : List PM.Issue) (now : Int) (db bh : Nat)
      (issue : PM.Issue),
      issue ∈ PM.get_meetings_ready_to_process all_issues now db bh →
      issue.closed_at = none →
      ∀ info, PM.parse_issue_for_meeting_info issue = some info →
        info.closed_at = none ∧
        MainPy.get_meeting_key info = .error PyErr.typeError) := by
  refine ⟨?_, ?_, ?_⟩
  · intro info s h
    simp [MainPy.get_meeting_key, h]
  · intro info h
    simp [MainPy.get_meeting_key, h]
  · intro all_issues now db bh issue hmem hclosed info hparse
    have hca : info.closed_at = none :=
      (parse_preserves_closed_at issue info hparse).trans hclosed
    exact ⟨hca, by simp [MainPy.get_meeting_key, hca]⟩

/-- C10 witness: a concrete open issue (whitelisted name, parseable past date)
is admitted by the ready filter and its meeting info cannot be keyed. -/
theorem c10_get_meeting_key_none_type_error_witness :
    MainPy.issueOpenW ∈
      PM.get_meetings_ready_to_process [MainPy.issueOpenW] MainPy.nowW 7 2 ∧
    (MainPy.infoOpenW.closed_at = none ∧
      MainPy.get_meeting_key MainPy.infoOpenW = .error PyErr.typeError) :=
  ⟨by decide,
   (c10_get_meeting_key_none_type_error).2.2 [MainPy.issueOpenW] MainPy.nowW
     7 2 MainPy.issueOpenW (by decide) (by decide) MainPy.infoOpenW (by decide)⟩


/-! ### C9: the processed-meetings cache round-trip -/
namespace MainPy
theorem hexFacts : ∀ k : Fin 16,
    isHexDigit (hexDigitChar k.val) = true ∧ hexVal (hexDigitChar k.val) = k.val := by
  decide

theorem psb_quote (t : List Char) : parseStringBody ('"' :: t) = some ([], t) := by
  rw [parseStringBody.eq_def]
  exact rfl

theorem psb_lit (c : Char) (t : List Char) (h1 : ¬c = '"') (h2 : ¬c = '\\')
    (h3 : ¬c.toNat < 32) :
    parseStringBody (c :: t) = (parseStringBody t).map (fun p => (c :: p.1, p.2)) := by
  rw [parseStringBody.eq_def]
  dsimp only
  rw [if_neg h1, if_neg h2, if_neg h3]

theorem psb_esc_q (t : List Char) :
    parseStringBody ('\\' :: '"' :: t) =
      (parseStringBody t).map (fun p => ('"' :: p.1, p.2)) := by
  rw [parseStringBody.eq_def]
  exact rfl

theorem psb_esc_b2 (t : List Char) :
    parseStringBody ('\\' :: '\\' :: t) =
      (parseStringBody t).map (fun p => ('\\' :: p.1, p.2)) := by
  rw [parseStringBody.eq_def]
  exact rfl

theorem psb_esc_n (t : List Char) :
    parseStringBody ('\\' :: 'n' :: t) =
      (parseStringBody t).map (fun p => ('\n' :: p.1, p.2)) := by
  rw [parseStringBody.eq_def]
  exact rfl

theorem psb_esc_t (t : List Char) :
    parseStringBody ('\\' :: 't' :: t) =
      (parseStringBody t).map (fun p => ('\t' :: p.1, p.2)) := by
  rw [parseStringBody.eq_def]
  exact rfl

theorem psb_esc_r (t : List Char) :
    parseStringBody ('\\' :: 'r' :: t) =
      (parseStringBody t).map (fun p => ('\r' :: p.1, p.2)) := by
  rw [parseStringBody.eq_def]
  exact rfl

theorem psb_esc_bs (t : List Char) :
    parseStringBody ('\\' :: 'b' :: t) =
      (parseStringBody t).map (fun p => (Char.ofNat 8 :: p.1, p.2)) := by
  rw [parseStringBody.eq_def]
  exact rfl

theorem psb_esc_fs (t : List Char) :
    parseStringBody ('\\' :: 'f' :: t) =
      (parseStringBody t).map (fun p => (Char.ofNat 12 :: p.1, p.2)) := by
  rw [parseStringBody.eq_def]
  exact rfl

theorem psb_u (n : Nat) (t r3 : List Char) (hp : parseHex4 t = some (n, r3))
    (hs1 : ¬(55296 ≤ n ∧ n ≤ 56319)) (hs2 : ¬(56320 ≤ n ∧ n ≤ 57343)) :
    parseStringBody ('\\' :: 'u' :: t) =
      (parseStringBody r3).map (fun p => (Char.ofNat n :: p.1, p.2)) := by
  rw [parseStringBody.eq_def]
  dsimp only
  rw [if_neg (by decide : ¬('\\' : Char) = '"')]
  rw [if_pos (by decide : ('\\' : Char) = '\\')]
  rw [if_pos (by decide : ('u' : Char) = 'u')]
  split
  · rename_i heq
    rw [hp] at heq
    cases heq
  · rename_i h0 r0 heq
    rw [hp] at heq
    cases heq
    rw [if_neg hs1, if_neg hs2]

theorem psb_surr (hn ln : Nat) (t r4 r5 : List Char)
    (hp : parseHex4 t = some (hn, '\\' :: 'u' :: r4))
    (hq : parseHex4 r4 = some (ln, r5))
    (hhi : 55296 ≤ hn ∧ hn ≤ 56319) (hlo : 56320 ≤ ln ∧ ln ≤ 57343) :
    parseStringBody ('\\' :: 'u' :: t) =
      (parseStringBody r5).map (fun p =>
        (Char.ofNat (65536 + (hn - 55296) * 1024 + (ln - 56320)) :: p.1, p.2)) := by
  rw [parseStringBody.eq_def]
  dsimp only
  rw [if_neg (by decide : ¬('\\' : Char) = '"')]
  rw [if_pos (by decide : ('\\' : Char) = '\\')]
  rw [if_pos (by decide : ('u' : Char) = 'u')]
  split
  · rename_i heq
    rw [hp] at heq
    cases heq
  · rename_i h0 r0 heq
    rw [hp] at heq
    cases heq
    rw [if_pos hhi]
    split
    · rename_i r3a hh1 r4b hh2 heqc heqh
      injection heqc with h1 h2
      injection h2 with h3 h4
      subst h4
      split
      · rename_i heq5
        rw [hq] at heq5
        cases heq5
      · rename_i l0 r5b heq5
        rw [hq] at heq5
        cases heq5
        rw [if_pos hlo]
    · rename_i x hh heq2
      exact (heq2 r4 hp rfl (proof_irrel_heq _ _)).elim

theorem parseHex4_hex4 (n : Nat) (t : List Char) (hn : n < 65536) :
    parseHex4 (hex4 n ++ t) = some (n, t) := by
  have ha1 : isHexDigit (hexDigitChar (n / 4096 % 16)) = true :=
    (hexFacts ⟨n / 4096 % 16, by omega⟩).1
  have ha2 : isHexDigit (hexDigitChar (n / 256 % 16)) = true :=
    (hexFacts ⟨n / 256 % 16, by omega⟩).1
  have ha3 : isHexDigit (hexDigitChar (n / 16 % 16)) = true :=
    (hexFacts ⟨n / 16 % 16, by omega⟩).1
  have ha4 : isHexDigit (hexDigitChar (n % 16)) = true :=
    (hexFacts ⟨n % 16, by omega⟩).1
  have hv1 : hexVal (hexDigitChar (n / 4096 % 16)) = n / 4096 % 16 :=
    (hexFacts ⟨n / 4096 % 16, by omega⟩).2
  have hv2 : hexVal (hexDigitChar (n / 256 % 16)) = n / 256 % 16 :=
    (hexFacts ⟨n / 256 % 16, by omega⟩).2
  have hv3 : hexVal (hexDigitChar (n / 16 % 16)) = n / 16 % 16 :=
    (hexFacts ⟨n / 16 % 16, by omega⟩).2
  have hv4 : hexVal (hexDigitChar (n % 16)) = n % 16 :=
    (hexFacts ⟨n % 16, by omega⟩).2
  show parseHex4 (hexDigitChar (n / 4096 % 16) :: hexDigitChar (n / 256 % 16) ::
    hexDigitChar (n / 16 % 16) :: hexDigitChar (n % 16) :: t) = some (n, t)
  rw [parseHex4]
  rw [ha1, ha2, ha3, ha4]
  rw [if_pos (show (true && true && true && true) = true from rfl)]
  rw [hv1, hv2, hv3, hv4]
  have harith : n / 4096 % 16 * 4096 + n / 256 % 16 * 256 + n / 16 % 16 * 16 +
      n % 16 = n := by omega
  rw [harith]

theorem char_toNat_cases (c : Char) :
    c.toNat < 55296 ∨ (57343 < c.toNat ∧ c.toNat < 1114112) := by
  rcases c.valid with h | h
  · exact Or.inl h
  · exact Or.inr h

theorem psb_escaped (s rest : List Char) :
    parseStringBody ((s.map escapeChar).flatten ++ '"' :: rest) = some (s, rest) := by
  induction s with
  | nil =>
    simpa using psb_quote rest
  | cons c s ih =>
    rw [List.map_cons, List.flatten_cons, List.append_assoc]
    by_cases h1 : c = '"'
    · subst h1
      show parseStringBody ('\\' :: '"' :: ((s.map escapeChar).flatten ++ '"' :: rest)) = _
      rw [psb_esc_q, ih]
      rfl
    by_cases h2 : c = '\\'
    · subst h2
      show parseStringBody ('\\' :: '\\' :: ((s.map escapeChar).flatten ++ '"' :: rest)) = _
      rw [psb_esc_b2, ih]
      rfl
    by_cases h3 : c = '\n'
    · subst h3
      show parseStringBody ('\\' :: 'n' :: ((s.map escapeChar).flatten ++ '"' :: rest)) = _
      rw [psb_esc_n, ih]
      rfl
    by_cases h4 : c = '\t'
    · subst h4
      show parseStringBody ('\\' :: 't' :: ((s.map escapeChar).flatten ++ '"' :: rest)) = _
      rw [psb_esc_t, ih]
      rfl
    by_cases h5 : c = '\r'
    · subst h5
      show parseStringBody ('\\' :: 'r' :: ((s.map escapeChar).flatten ++ '"' :: rest)) = _
      rw [psb_esc_r, ih]
      rfl
    by_cases h6 : c.toNat = 8
    · have hec : escapeChar c = ['\\', 'b'] := by
        unfold escapeChar
        rw [if_neg h1, if_neg h2, if_neg h3, if_neg h4, if_neg h5, if_pos h6]
      rw [hec]
      show parseStringBody ('\\' :: 'b' :: ((s.map escapeChar).flatten ++ '"' :: rest)) = _
      rw [psb_esc_bs, ih]
      have hc : Char.ofNat 8 = c := by rw [← h6, Char.ofNat_toNat]
      rw [hc]
      rfl
    by_cases h7 : c.toNat = 12
    · have hec : escapeChar c = ['\\', 'f'] := by
        unfold escapeChar
        rw [if_neg h1, if_neg h2, if_neg h3, if_neg h4, if_neg h5, if_neg h6,
          if_pos h7]
      rw [hec]
      show parseStringBody ('\\' :: 'f' :: ((s.map escapeChar).flatten ++ '"' :: rest)) = _
      rw [psb_esc_fs, ih]
      have hc : Char.ofNat 12 = c := by rw [← h7, Char.ofNat_toNat]
      rw [hc]
      rfl
    by_cases h8 : c.toNat < 32
    · have hec : escapeChar c = '\\' :: 'u' :: hex4 c.toNat := by
        unfold escapeChar
        rw [if_neg h1, if_neg h2, if_neg h3, if_neg h4, if_neg h5, if_neg h6,
          if_neg h7, if_pos h8]
      rw [hec]
      show parseStringBody ('\\' :: 'u' :: (hex4 c.toNat ++ ((s.map escapeChar).flatten ++ '"' :: rest))) = _
      rw [psb_u c.toNat _ _ (parseHex4_hex4 c.toNat _ (by omega))
        (by omega) (by omega), ih, Char.ofNat_toNat]
      rfl
    by_cases h9 : c.toNat < 127
    · have hec : escapeChar c = [c] := by
        unfold escapeChar
        rw [if_neg h1, if_neg h2, if_neg h3, if_neg h4, if_neg h5, if_neg h6,
          if_neg h7, if_neg h8, if_pos h9]
      rw [hec]
      show parseStringBody (c :: ((s.map escapeChar).flatten ++ '"' :: rest)) = _
      rw [psb_lit c _ h1 h2 h8, ih]
      rfl
    by_cases h10 : c.toNat < 65536
    · have hvc := char_toNat_cases c
      have hec : escapeChar c = '\\' :: 'u' :: hex4 c.toNat := by
        unfold escapeChar
        rw [if_neg h1, if_neg h2, if_neg h3, if_neg h4, if_neg h5, if_neg h6,
          if_neg h7, if_neg h8, if_neg h9, if_pos h10]
      rw [hec]
      show parseStringBody ('\\' :: 'u' :: (hex4 c.toNat ++ ((s.map escapeChar).flatten ++ '"' :: rest))) = _
      rw [psb_u c.toNat _ _ (parseHex4_hex4 c.toNat _ (by omega))
        (by omega) (by omega), ih, Char.ofNat_toNat]
      rfl
    · have hvc := char_toNat_cases c
      have hec : escapeChar c =
          ('\\' :: 'u' :: hex4 (55296 + (c.toNat - 65536) / 1024)) ++
            ('\\' :: 'u' :: hex4 (56320 + (c.toNat - 65536) % 1024)) := by
        unfold escapeChar
        rw [if_neg h1, if_neg h2, if_neg h3, if_neg h4, if_neg h5, if_neg h6,
          if_neg h7, if_neg h8, if_neg h9, if_neg h10]
      rw [hec]
      simp only [List.cons_append, List.append_assoc]
      rw [psb_surr (55296 + (c.toNat - 65536) / 1024)
        (56320 + (c.toNat - 65536) % 1024) _ _ _
        (parseHex4_hex4 _ _ (by omega)) (parseHex4_hex4 _ _ (by omega))
        (by omega) (by omega), ih]
      have harith : 65536 +
          (55296 + (c.toNat - 65536) / 1024 - 55296) * 1024 +
          (56320 + (c.toNat - 65536) % 1024 - 56320) = c.toNat := by omega
      rw [harith, Char.ofNat_toNat]
      rfl

theorem skipWs_ws (c : Char) (t : List Char) (h : jsonWs c = true) :
    skipWs (c :: t) = skipWs t := by
  simp [skipWs, List.dropWhile_cons, h]

theorem skipWs_not (c : Char) (t : List Char) (h : jsonWs c = false) :
    skipWs (c :: t) = c :: t := by
  simp [skipWs, List.dropWhile_cons, h]

theorem skipWs_quote (t : List Char) : skipWs ('"' :: t) = '"' :: t :=
  skipWs_not _ _ rfl

theorem skipWs_colon (t : List Char) : skipWs (':' :: t) = ':' :: t :=
  skipWs_not _ _ rfl

theorem skipWs_comma (t : List Char) : skipWs (',' :: t) = ',' :: t :=
  skipWs_not _ _ rfl

theorem skipWs_rbrace (t : List Char) : skipWs ('}' :: t) = '}' :: t :=
  skipWs_not _ _ rfl

theorem skipWs_lbrace (t : List Char) : skipWs ('{' :: t) = '{' :: t :=
  skipWs_not _ _ rfl

theorem skipWs_nchar (t : List Char) : skipWs ('n' :: t) = 'n' :: t :=
  skipWs_not _ _ rfl

theorem skipWs_sp (t : List Char) : skipWs (' ' :: t) = skipWs t :=
  skipWs_ws _ _ rfl

theorem skipWs_nl (t : List Char) : skipWs ('\n' :: t) = skipWs t :=
  skipWs_ws _ _ rfl


theorem parseFieldsAux_congr (fuel : Nat) (t t' : List Char)
    (h : skipWs t = skipWs t') :
    parseFieldsAux (fuel + 1) t = parseFieldsAux (fuel + 1) t' := by
  rw [parseFieldsAux]
  conv_rhs => rw [parseFieldsAux]
  rw [h]

theorem parseFieldsAux_nl (fuel : Nat) (t : List Char) :
    parseFieldsAux (fuel + 1) ('\n' :: t) = parseFieldsAux (fuel + 1) t :=
  parseFieldsAux_congr fuel _ t (skipWs_nl t)

theorem parseFieldsAux_sp (fuel : Nat) (t : List Char) :
    parseFieldsAux (fuel + 1) (' ' :: t) = parseFieldsAux (fuel + 1) t :=
  parseFieldsAux_congr fuel _ t (skipWs_sp t)

theorem parseFields_round (fs : CacheEntry) :
    ∀ (f : List Char × Option (List Char)) (fuel : Nat) (tail : List Char),
      fs.length ≤ fuel →
      parseFieldsAux (fuel + 1)
        (joinSep ((",\n    ").toList) ((f :: fs).map printField) ++
          ("\n  \x7d").toList ++ tail) = some (f :: fs, tail) := by
  have e1 : ("\n  \x7d").toList = ['\n', ' ', ' ', '}'] := rfl
  have e2 : (",\n    ").toList = [',', '\n', ' ', ' ', ' ', ' '] := rfl
  induction fs with
  | nil =>
    intro f fuel tail _
    obtain ⟨k, v⟩ := f
    cases v with
    | none =>
      simp only [List.map_cons, List.map_nil, joinSep, printField, printString,
        dumpStrOrNull, e1, show ("null").toList = ['n','u','l','l'] from rfl,
        List.cons_append, List.nil_append, List.append_assoc,
        List.singleton_append, parseFieldsAux, parseStrOrNull,
        skipWs_quote, skipWs_colon, skipWs_comma, skipWs_rbrace, skipWs_nchar,
        skipWs_sp, skipWs_nl, psb_escaped, Option.some_bind, Option.map_some']
    | some str =>
      simp only [List.map_cons, List.map_nil, joinSep, printField, printString,
        dumpStrOrNull, e1,
        List.cons_append, List.nil_append, List.append_assoc,
        List.singleton_append, parseFieldsAux, parseStrOrNull,
        skipWs_quote, skipWs_colon, skipWs_comma, skipWs_rbrace, skipWs_nchar,
        skipWs_sp, skipWs_nl, psb_escaped, Option.some_bind, Option.map_some']
  | cons f2 fs ih =>
    intro f fuel tail hf
    obtain ⟨k, v⟩ := f
    obtain ⟨fuel2, rfl⟩ : ∃ m, fuel = m + 1 :=
      ⟨fuel - 1, by
        have hh := hf
        simp only [List.length_cons] at hh
        omega⟩
    have ih' := ih f2 fuel2 tail (by
      have hh := hf
      simp only [List.length_cons] at hh
      omega)
    cases v with
    | none =>
      simp only [List.map_cons, joinSep, printField, printString,
        dumpStrOrNull, e1, e2, show ("null").toList = ['n','u','l','l'] from rfl,
        List.cons_append, List.nil_append, List.append_assoc,
        List.singleton_append, parseFieldsAux, parseStrOrNull,
        skipWs_quote, skipWs_colon, skipWs_comma, skipWs_rbrace, skipWs_nchar,
        skipWs_sp, skipWs_nl, psb_escaped, Option.some_bind, Option.map_some',
        parseFieldsAux_nl, parseFieldsAux_sp] at ih' ⊢
      rw [ih']
      rfl
    | some str =>
      simp only [List.map_cons, joinSep, printField, printString,
        dumpStrOrNull, e1, e2, show ("null").toList = ['n','u','l','l'] from rfl,
        List.cons_append, List.nil_append, List.append_assoc,
        List.singleton_append, parseFieldsAux, parseStrOrNull,
        skipWs_quote, skipWs_colon, skipWs_comma, skipWs_rbrace, skipWs_nchar,
        skipWs_sp, skipWs_nl, psb_escaped, Option.some_bind, Option.map_some',
        parseFieldsAux_nl, parseFieldsAux_sp] at ih' ⊢
      rw [ih']
      rfl

theorem joinSep_fields_length (f : List Char × Option (List Char))
    (fs : CacheEntry) :
    fs.length ≤ (joinSep ((",\n    ").toList) ((f :: fs).map printField)).length := by
  induction fs generalizing f with
  | nil => simp
  | cons f2 fs ih =>
    have h2 := ih f2
    simp only [List.map_cons, joinSep, List.length_append, List.length_cons]
    simp only [List.map_cons] at h2
    have hsep : ((",\n    ").toList).length = 6 := rfl
    omega

theorem joinSep_fields_head (f : List Char × Option (List Char))
    (fs : CacheEntry) :
    ∃ u, joinSep ((",\n    ").toList) ((f :: fs).map printField) = '"' :: u := by
  cases fs with
  | nil =>
    exact ⟨_, rfl⟩
  | cons f2 fs2 =>
    exact ⟨_, by
      simp only [List.map_cons, joinSep, printField, printString,
        List.cons_append, List.nil_append, List.append_assoc]
      rfl⟩

theorem parseInner_round (e : CacheEntry) (tail : List Char) :
    parseInnerObj (' ' :: (dumpInner e ++ tail)) = some (e, tail) := by
  cases e with
  | nil =>
    show parseInnerObj (' ' :: '{' :: '}' :: tail) = some ([], tail)
    simp only [parseInnerObj, skipWs_sp, skipWs_lbrace, skipWs_rbrace]
  | cons f fs =>
    obtain ⟨u, hu⟩ := joinSep_fields_head f fs
    have hb : fs.length ≤ (joinSep ((",\n    ").toList) ((f :: fs).map printField) ++
        ("\n  \x7d").toList ++ tail).length := by
      have := joinSep_fields_length f fs
      simp only [List.length_append]
      omega
    have hr := parseFields_round fs f _ tail hb
    rw [hu] at hr
    simp only [show ("\n  \x7d").toList = ['\n', ' ', ' ', '}'] from rfl,
      List.cons_append, List.nil_append, List.append_assoc] at hr
    simp only [parseInnerObj, dumpInner, hu,
      show ("\x7b\n    ").toList = ['{', '\n', ' ', ' ', ' ', ' '] from rfl,
      show ("\n  \x7d").toList = ['\n', ' ', ' ', '}'] from rfl,
      List.cons_append, List.nil_append, List.append_assoc,
      skipWs_sp, skipWs_nl, skipWs_lbrace, skipWs_quote]
    exact hr

theorem parseEntriesAux_congr (fuel : Nat) (t t' : List Char)
    (h : skipWs t = skipWs t') :
    parseEntriesAux (fuel + 1) t = parseEntriesAux (fuel + 1) t' := by
  rw [parseEntriesAux]
  conv_rhs => rw [parseEntriesAux]
  rw [h]

theorem parseEntriesAux_nl (fuel : Nat) (t : List Char) :
    parseEntriesAux (fuel + 1) ('\n' :: t) = parseEntriesAux (fuel + 1) t :=
  parseEntriesAux_congr fuel _ t (skipWs_nl t)

theorem parseEntriesAux_sp (fuel : Nat) (t : List Char) :
    parseEntriesAux (fuel + 1) (' ' :: t) = parseEntriesAux (fuel + 1) t :=
  parseEntriesAux_congr fuel _ t (skipWs_sp t)

theorem joinSep_entries_length (kv : List Char × CacheEntry) (rest : Cache) :
    rest.length ≤ (joinSep ((",\n  ").toList) ((kv :: rest).map printEntry)).length := by
  induction rest generalizing kv with
  | nil => simp
  | cons kv2 rest2 ih =>
    have h2 := ih kv2
    simp only [List.map_cons, joinSep, List.length_append, List.length_cons]
    simp only [List.map_cons] at h2
    have hsep : ((",\n  ").toList).length = 4 := rfl
    omega

theorem parseEntries_round (rest : Cache) :
    ∀ (kv : List Char × CacheEntry) (fuel : Nat) (tail : List Char),
      rest.length ≤ fuel →
      parseEntriesAux (fuel + 1)
        (joinSep ((",\n  ").toList) ((kv :: rest).map printEntry) ++
          ("\n\x7d").toList ++ tail) = some (kv :: rest, tail) := by
  have e1 : ("\n\x7d").toList = ['\n', '}'] := rfl
  have e2 : (",\n  ").toList = [',', '\n', ' ', ' '] := rfl
  induction rest with
  | nil =>
    intro kv fuel tail _
    obtain ⟨k, e⟩ := kv
    simp only [List.map_cons, List.map_nil, joinSep, printEntry, printString,
      e1, List.cons_append, List.nil_append, List.append_assoc,
      List.singleton_append, parseEntriesAux,
      skipWs_quote, skipWs_colon, skipWs_comma, skipWs_rbrace,
      skipWs_sp, skipWs_nl, psb_escaped, Option.some_bind, Option.map_some',
      parseInner_round]
  | cons kv2 rest2 ih =>
    intro kv fuel tail hf
    obtain ⟨k, e⟩ := kv
    obtain ⟨fuel2, rfl⟩ : ∃ m, fuel = m + 1 :=
      ⟨fuel - 1, by
        have hh := hf
        simp only [List.length_cons] at hh
        omega⟩
    have ih' := ih kv2 fuel2 tail (by
      have hh := hf
      simp only [List.length_cons] at hh
      omega)
    simp only [List.map_cons, joinSep, printEntry, printString,
      e1, e2, List.cons_append, List.nil_append, List.append_assoc,
      List.singleton_append, parseEntriesAux,
      skipWs_quote, skipWs_colon, skipWs_comma, skipWs_rbrace,
      skipWs_sp, skipWs_nl, psb_escaped, Option.some_bind, Option.map_some',
      parseInner_round, parseEntriesAux_nl, parseEntriesAux_sp] at ih' ⊢
    rw [ih']
    rfl

theorem joinSep_entries_head (kv : List Char × CacheEntry) (rest : Cache) :
    ∃ u, joinSep ((",\n  ").toList) ((kv :: rest).map printEntry) = '"' :: u := by
  cases rest with
  | nil =>
    exact ⟨_, rfl⟩
  | cons kv2 rest2 =>
    exact ⟨_, by
      simp only [List.map_cons, joinSep, printEntry, printString,
        List.cons_append, List.nil_append, List.append_assoc]
      rfl⟩

end MainPy

/-- C9: Cache round-trip.  For every cache (a list of key/entry pairs, each
entry a list of field/string-or-null pairs, as `main.py` builds it),
writing the cache with `save_processed_meetings_cache` (`json.dump` with
`indent=2`) and reading the file back with `get_processed_meetings_cache`
(`json.load`) succeeds and returns the very same cache: the same keys in the
same order and, for every key, the same fields with the same
string-or-`None` values - in particular the same key set and status
fields. -/
theorem c9_cache_round_trip (cache : MainPy.Cache) :
    MainPy.get_processed_meetings_cache
      (MainPy.save_processed_meetings_cache cache) = some cache := by
  show MainPy.json_loads_cache (MainPy.dumpCache cache) = some cache
  cases cache with
  | nil => rfl
  | cons kv rest =>
    obtain ⟨u, hu⟩ := MainPy.joinSep_entries_head kv rest
    have hb : rest.length ≤ (MainPy.joinSep ((",\n  ").toList) ((kv :: rest).map MainPy.printEntry) ++
        ("\n\x7d").toList ++ ([] : List Char)).length := by
      have := MainPy.joinSep_entries_length kv rest
      simp only [List.length_append]
      omega
    have hr := MainPy.parseEntries_round rest kv _ [] hb
    rw [hu] at hr
    simp only [show ("\n\x7d").toList = ['\n', '}'] from rfl, List.append_nil,
      List.cons_append, List.nil_append, List.append_assoc] at hr
    simp only [MainPy.json_loads_cache, MainPy.dumpCache, hu,
      show ("\x7b\n  ").toList = ['{', '\n', ' ', ' '] from rfl,
      show ("\n\x7d").toList = ['\n', '}'] from rfl,
      List.cons_append, List.nil_append, List.append_assoc, List.append_nil,
      MainPy.skipWs_sp, MainPy.skipWs_nl, MainPy.skipWs_lbrace, MainPy.skipWs_quote]
    show (MainPy.parseEntriesAux (('"' :: (u ++ ['\n', '}'])).length + 1)
      ('"' :: (u ++ ['\n', '}']))).bind
        (fun p => if MainPy.skipWs p.2 = [] then some p.1 else none) = some (kv :: rest)
    rw [hr]
    rfl


/-! ### C7 and C8: the README table update -/

namespace RT

theorem digitChar_isDigit : ∀ k : Fin 10, (Nat.digitChar k.val).isDigit = true := by
  decide

theorem toDigitsCore_chars (f : Nat) :
    ∀ (n : Nat) (acc : List Char) (c : Char), c ∈ Nat.toDigitsCore 10 f n acc →
      c ∈ acc ∨ c.isDigit = true := by
  induction f with
  | zero =>
    intro n acc c hc
    exact Or.inl hc
  | succ f ih =>
    intro n acc c hc
    simp only [Nat.toDigitsCore] at hc
    by_cases h0 : n / 10 = 0
    · rw [if_pos h0] at hc
      rcases List.mem_cons.mp hc with h | h
      · subst h
        exact Or.inr (digitChar_isDigit ⟨n % 10, Nat.mod_lt _ (by omega)⟩)
      · exact Or.inl h
    · rw [if_neg h0] at hc
      rcases ih _ _ _ hc with h | h
      · rcases List.mem_cons.mp h with h2 | h2
        · subst h2
          exact Or.inr (digitChar_isDigit ⟨n % 10, Nat.mod_lt _ (by omega)⟩)
        · exact Or.inl h2
      · exact Or.inr h

theorem repr_chars (n : Nat) : ∀ c ∈ (Nat.repr n).toList, c.isDigit = true := by
  intro c hc
  have hc2 : c ∈ Nat.toDigitsCore 10 (n + 1) n [] := hc
  rcases toDigitsCore_chars (n + 1) n [] c hc2 with h | h
  · cases h
  · exact h

/-! Line and row-group lemmas. -/

theorem takeLine_append (l r : List Char) (h : '\n' ∉ l) :
    takeLine (l ++ '\n' :: r) = some (l, r) := by
  induction l with
  | nil => simp [takeLine]
  | cons c t ih =>
    have hc : ¬c = '\n' := fun hh => h (hh ▸ List.mem_cons_self c t)
    have ht : '\n' ∉ t := fun hh => h (List.mem_cons_of_mem c hh)
    rw [List.cons_append, takeLine, if_neg hc, ih ht]
    rfl

theorem takeLine_length (t : List Char) :
    ∀ l r, takeLine t = some (l, r) → t.length = l.length + r.length + 1 := by
  induction t with
  | nil => intro l r h; cases h
  | cons c t ih =>
    intro l r h
    simp only [takeLine] at h
    by_cases hc : c = '\n'
    · rw [if_pos hc] at h
      cases h
      simp
    · rw [if_neg hc] at h
      cases ht : takeLine t with
      | none => rw [ht] at h; cases h
      | some p =>
        rw [ht] at h
        simp only [Option.map_some'] at h
        cases h
        have := ih p.1 p.2 ht
        simp only [List.length_cons]
        omega

theorem collectAux_congr : ∀ (f1 f2 : Nat) (t : List Char),
    t.length < f1 → t.length < f2 →
    collectRowLinesAux f1 t = collectRowLinesAux f2 t := by
  intro f1
  induction f1 with
  | zero => intro f2 t h1; omega
  | succ f1 ih =>
    intro f2 t h1 h2
    match f2, h2 with
    | f2 + 1, h2 =>
      simp only [collectRowLinesAux]
      cases ht : takeLine t with
      | none => rfl
      | some p =>
        have hlen := takeLine_length t p.1 p.2 ht
        dsimp only
        by_cases hr : rowLineOk p.1 = true
        · rw [if_pos hr, if_pos hr, ih f2 p.2 (by omega) (by omega)]
        · rw [if_neg hr, if_neg hr]

theorem collect_cons (l t : List Char) (hrow : rowLineOk l = true)
    (hnl : '\n' ∉ l) :
    collectRowLines (l ++ '\n' :: t) = l :: collectRowLines t := by
  show collectRowLinesAux ((l ++ '\n' :: t).length + 1) (l ++ '\n' :: t) = _
  rw [collectRowLinesAux, takeLine_append l t hnl]
  dsimp only
  rw [if_pos hrow]
  rw [collectAux_congr ((l ++ '\n' :: t).length) (t.length + 1) t
    (by simp only [List.length_append, List.length_cons]; omega) (by omega)]
  rfl

theorem collect_joined (rows : List (List Char)) :
    ∀ (r t : List Char), (∀ x ∈ r :: rows, rowLineOk x = true ∧ '\n' ∉ x) →
    collectRowLines (MainPy.joinSep ['\n'] (r :: rows) ++ '\n' :: t) =
      (r :: rows) ++ collectRowLines t := by
  induction rows with
  | nil =>
    intro r t hv
    have h1 := hv r (List.mem_cons_self r [])
    show collectRowLines (r ++ '\n' :: t) = _
    rw [collect_cons r t h1.1 h1.2]
    rfl
  | cons r2 rows ih =>
    intro r t hv
    have h1 := hv r (List.mem_cons_self r _)
    show collectRowLines ((r ++ ['\n'] ++ MainPy.joinSep ['\n'] (r2 :: rows)) ++ '\n' :: t) = _
    rw [List.append_assoc, List.append_assoc]
    rw [show (['\n'] ++ (MainPy.joinSep ['\n'] (r2 :: rows) ++ '\n' :: t)) =
      '\n' :: (MainPy.joinSep ['\n'] (r2 :: rows) ++ '\n' :: t) from rfl]
    rw [collect_cons r _ h1.1 h1.2]
    rw [ih r2 t (fun x hx => hv x (List.mem_cons_of_mem r hx))]
    rfl

/-! Split and strip lemmas for the row parse-back. -/

theorem splitOn_head (ys : List Char) :
    ('|' :: ys).splitOn '|' = [] :: ys.splitOn '|' := by
  simp only [List.splitOn, List.splitOnP_cons]
  rw [if_pos (by simp)]

theorem splitOn_sandwich (xs ys : List Char) (h : '|' ∉ xs) :
    (xs ++ '|' :: ys).splitOn '|' = xs :: ys.splitOn '|' := by
  induction xs with
  | nil => exact splitOn_head ys
  | cons c t ih =>
    have hc : ¬(c == '|') = true := by
      simp only [beq_iff_eq]
      exact fun hh => h (hh ▸ List.mem_cons_self c t)
    have ht : '|' ∉ t := fun hh => h (List.mem_cons_of_mem c hh)
    simp only [List.splitOn, List.cons_append, List.splitOnP_cons, if_neg hc]
    have := ih ht
    simp only [List.splitOn] at this
    rw [this]
    rfl

theorem dropWhile_nonws (l : List Char) (h : ∀ c ∈ l, isPySpace c = false) :
    l.dropWhile isPySpace = l := by
  cases l with
  | nil => rfl
  | cons c t =>
    rw [List.dropWhile_cons, if_neg (by rw [h c (List.mem_cons_self c t)]; simp)]

theorem pyStrip_nonws (l : List Char) (h : ∀ c ∈ l, isPySpace c = false) :
    pyStrip l = l := by
  simp only [pyStrip]
  rw [dropWhile_nonws l h,
    dropWhile_nonws l.reverse (fun c hc => h c (List.mem_reverse.mp hc)),
    List.reverse_reverse]

theorem digit_not_pySpace (c : Char) (h : c.isDigit = true) :
    isPySpace c = false := by
  cases hsp : isPySpace c with
  | false => rfl
  | true =>
    simp only [isPySpace, Bool.or_eq_true, decide_eq_true_eq] at hsp
    rcases hsp with ((((h1 | h1) | h1) | h1) | h1) | h1 <;> (subst h1; simp at h)

theorem pyStrip_digits (n : List Char) (h : pyIsDigit n = true) :
    pyStrip n = n := by
  simp only [pyIsDigit, Bool.and_eq_true, List.all_eq_true] at h
  exact pyStrip_nonws n (fun c hc => digit_not_pySpace c (h.2 c hc))

theorem pyStrip_sp_wrap (l : List Char) :
    pyStrip (' ' :: (l ++ [' '])) = pyStrip l := by
  simp only [pyStrip]
  have h1 : List.dropWhile isPySpace (' ' :: (l ++ [' '])) =
      List.dropWhile isPySpace (l ++ [' ']) := by
    rw [List.dropWhile_cons]
    rw [if_pos (by simp [isPySpace])]
  rw [h1, List.dropWhile_append]
  by_cases he : (List.dropWhile isPySpace l).isEmpty = true
  · rw [if_pos he]
    have h2 : List.dropWhile isPySpace l = [] := by
      cases hd : List.dropWhile isPySpace l
      · rfl
      · rw [hd] at he; simp at he
    rw [h2]
    rw [show List.dropWhile isPySpace [' '] = [] from by
      simp [List.dropWhile, isPySpace]]
  · rw [if_neg he]
    rw [List.reverse_append]
    show (List.dropWhile isPySpace
      (' ' :: (List.dropWhile isPySpace l).reverse)).reverse = _
    rw [List.dropWhile_cons, if_pos (by simp [isPySpace])]

/-! Sort, traversal and `int()` lemmas. -/

theorem mem_insertByKey (k : NewMeeting → Int) (x y : NewMeeting) :
    ∀ l, (y ∈ insertByKey k x l ↔ y = x ∨ y ∈ l) := by
  intro l
  induction l with
  | nil => simp [insertByKey]
  | cons z zs ih =>
    simp only [insertByKey]
    by_cases h : k z < k x
    · rw [if_pos h]
      simp only [List.mem_cons, ih]
      tauto
    · rw [if_neg h]
      simp only [List.mem_cons]

theorem mem_sortByKeyAsc (k : NewMeeting → Int) (x : NewMeeting) :
    ∀ l, (x ∈ sortByKeyAsc k l ↔ x ∈ l) := by
  intro l
  induction l with
  | nil => simp [sortByKeyAsc]
  | cons z zs ih =>
    simp only [sortByKeyAsc, mem_insertByKey, ih, List.mem_cons]

theorem sortByKeyAsc_ne_nil (k : NewMeeting → Int) (x : NewMeeting)
    (l : List NewMeeting) : sortByKeyAsc k (x :: l) ≠ [] := by
  simp only [sortByKeyAsc]
  cases hs : sortByKeyAsc k l with
  | nil => simp [insertByKey]
  | cons z zs =>
    simp only [insertByKey]
    by_cases h : k z < k x
    · rw [if_pos h]; simp
    · rw [if_neg h]; simp

theorem mapM_mem_forward {α β : Type} (f : α → Option β) :
    ∀ (l : List α) (res : List β), l.mapM f = some res →
      ∀ x ∈ l, ∃ r ∈ res, f x = some r := by
  intro l
  induction l with
  | nil => intro res h x hx; cases hx
  | cons a t ih =>
    intro res h x hx
    rw [List.mapM_cons] at h
    cases ha : f a with
    | none => rw [ha] at h; cases h
    | some b =>
      rw [ha] at h
      cases hrest : t.mapM f with
      | none => rw [hrest] at h; cases h
      | some bs =>
        rw [hrest] at h
        simp only [Option.bind_eq_bind, Option.some_bind, Option.pure_def] at h
        cases h
        rcases List.mem_cons.mp hx with h1 | h1
        · exact ⟨b, List.mem_cons_self b bs, h1 ▸ ha⟩
        · obtain ⟨r, hr1, hr2⟩ := ih bs hrest x h1
          exact ⟨r, List.mem_cons_of_mem b hr1, hr2⟩

theorem mapM_mem_backward {α β : Type} (f : α → Option β) :
    ∀ (l : List α) (res : List β), l.mapM f = some res →
      ∀ r ∈ res, ∃ x ∈ l, f x = some r := by
  intro l
  induction l with
  | nil =>
    intro res h r hr
    cases h
    cases hr
  | cons a t ih =>
    intro res h r hr
    rw [List.mapM_cons] at h
    cases ha : f a with
    | none => rw [ha] at h; cases h
    | some b =>
      rw [ha] at h
      cases hrest : t.mapM f with
      | none => rw [hrest] at h; cases h
      | some bs =>
        rw [hrest] at h
        simp only [Option.bind_eq_bind, Option.some_bind, Option.pure_def] at h
        cases h
        rcases List.mem_cons.mp hr with h1 | h1
        · exact ⟨a, List.mem_cons_self a t, h1 ▸ ha⟩
        · obtain ⟨x, hx1, hx2⟩ := ih bs hrest r h1
          exact ⟨x, List.mem_cons_of_mem a hx1, hx2⟩

theorem pyInt_digits (n : List Char) (h : pyIsDigit n = true) :
    pyInt n = some (digitsToNat n : Int) := by
  simp only [pyInt, pyStrip_digits n h]
  match n, h with
  | c :: t, h =>
    have hc : c.isDigit = true := by
      simp only [pyIsDigit, Bool.and_eq_true, List.all_eq_true] at h
      exact h.2 c (List.mem_cons_self c t)
    have hc1 : ¬c = '-' := fun hh => by subst hh; simp at hc
    have hc2 : ¬c = '+' := fun hh => by subst hh; simp at hc
    split
    · rename_i ds heq
      injection heq with e1 _
      exact absurd e1 hc1
    · rename_i ds heq
      injection heq with e1 _
      exact absurd e1 hc2
    · rw [if_pos h]

/-! The canonical README shape: the file starts with the table header. -/

theorem rowLineOk_head (l : List Char) (h : rowLineOk l = true) :
    ∃ t, l = '|' :: t := by
  simp only [rowLineOk, Bool.and_eq_true, decide_eq_true_eq] at h
  cases l with
  | nil => simp at h
  | cons c t =>
    refine ⟨t, ?e⟩
    have : c = '|' := h.1.2
    rw [this]

theorem matchHeaderAt_canonical (h1 s1 rest : List Char)
    (hh1 : rowLineOk h1 = true) (hn1 : '\n' ∉ h1)
    (hs1 : sepLineOk s1 = true) (hn2 : '\n' ∉ s1) :
    matchHeaderAt (litHeader ++ '\n' :: '\n' :: (h1 ++ '\n' :: (s1 ++ '\n' :: rest))) =
      some (11 + 2 + (h1.length + 1) + (s1.length + 1)) := by
  obtain ⟨h1t, hdec⟩ := rowLineOk_head h1 hh1
  subst hdec
  have e1 : (litHeader ++ '\n' :: '\n' :: (('|' :: h1t) ++ '\n' :: (s1 ++ '\n' :: rest))).take 11 = litHeader :=
    List.take_left' rfl
  have e2 : (litHeader ++ '\n' :: '\n' :: (('|' :: h1t) ++ '\n' :: (s1 ++ '\n' :: rest))).drop 11 =
      '\n' :: '\n' :: (('|' :: h1t) ++ '\n' :: (s1 ++ '\n' :: rest)) :=
    List.drop_left' rfl
  rw [matchHeaderAt, e1, if_pos rfl, e2]
  dsimp only
  have e3 : List.takeWhile isPySpace
      ('\n' :: '\n' :: (('|' :: h1t) ++ '\n' :: (s1 ++ '\n' :: rest))) = ['\n', '\n'] := by
    rw [List.takeWhile_cons, if_pos (by simp [isPySpace]),
      List.takeWhile_cons, if_pos (by simp [isPySpace]),
      List.cons_append, List.takeWhile_cons, if_neg (by simp [isPySpace])]
  rw [e3]
  rw [show (['\n', '\n'] : List Char).length = 2 from rfl]
  rw [if_pos (by simp)]
  have e4 : List.drop 2
      ('\n' :: '\n' :: ('|' :: h1t ++ '\n' :: (s1 ++ '\n' :: rest))) =
      '|' :: h1t ++ '\n' :: (s1 ++ '\n' :: rest) := rfl
  rw [e4, takeLine_append _ _ hn1]
  dsimp only
  rw [if_pos hh1, takeLine_append _ _ hn2]
  dsimp only
  rw [if_pos hs1]

theorem findHeaderEnd_canonical (h1 s1 rest : List Char)
    (hh1 : rowLineOk h1 = true) (hn1 : '\n' ∉ h1)
    (hs1 : sepLineOk s1 = true) (hn2 : '\n' ∉ s1) :
    findHeaderEnd (litHeader ++ '\n' :: '\n' :: (h1 ++ '\n' :: (s1 ++ '\n' :: rest))) =
      some (11 + 2 + (h1.length + 1) + (s1.length + 1)) := by
  have hm := matchHeaderAt_canonical h1 s1 rest hh1 hn1 hs1 hn2
  rw [findHeaderEnd]
  rw [show litHeader ++ '\n' :: '\n' :: (h1 ++ '\n' :: (s1 ++ '\n' :: rest)) =
    '#' :: (' ' :: 'A' :: 'C' :: 'D' :: ' ' :: 'c' :: 'a' :: 'l' :: 'l' :: 's' ::
      ('\n' :: '\n' :: (h1 ++ '\n' :: (s1 ++ '\n' :: rest)))) from rfl] at hm ⊢
  rw [findHeaderEndAux, hm]
  dsimp only
  rw [Nat.zero_add]

theorem canonical_take (h1 s1 rest : List Char) :
    (litHeader ++ '\n' :: '\n' :: (h1 ++ '\n' :: (s1 ++ '\n' :: rest))).take
      (11 + 2 + (h1.length + 1) + (s1.length + 1)) =
      litHeader ++ '\n' :: '\n' :: (h1 ++ '\n' :: (s1 ++ ['\n'])) := by
  have hsplit : litHeader ++ '\n' :: '\n' :: (h1 ++ '\n' :: (s1 ++ '\n' :: rest)) =
      (litHeader ++ '\n' :: '\n' :: (h1 ++ '\n' :: (s1 ++ ['\n']))) ++ rest := by
    simp [List.append_assoc]
  rw [hsplit, List.take_left']
  simp [litHeader]
  omega

theorem canonical_drop (h1 s1 rest : List Char) :
    (litHeader ++ '\n' :: '\n' :: (h1 ++ '\n' :: (s1 ++ '\n' :: rest))).drop
      (11 + 2 + (h1.length + 1) + (s1.length + 1)) = rest := by
  have hsplit : litHeader ++ '\n' :: '\n' :: (h1 ++ '\n' :: (s1 ++ '\n' :: rest)) =
      (litHeader ++ '\n' :: '\n' :: (h1 ++ '\n' :: (s1 ++ ['\n']))) ++ rest := by
    simp [List.append_assoc]
  rw [hsplit, List.drop_left']
  simp [litHeader]
  omega

/-! No newline and no pipe in the generated row fields. -/

theorem not_mem_repr (y : Nat) : '\n' ∉ (Nat.repr y).toList ∧ '|' ∉ (Nat.repr y).toList := by
  constructor <;> intro h <;> have := repr_chars y _ h <;> simp at this

theorem not_mem_pad2 (n : Nat) : '\n' ∉ pad2 n ∧ '|' ∉ pad2 n := by
  have hr := not_mem_repr n
  simp only [pad2]
  by_cases h : n < 10
  · rw [if_pos h]
    constructor <;> intro hm <;> rcases List.mem_cons.mp hm with h1 | h1 <;>
      first
        | cases h1
        | exact hr.1 h1
        | exact hr.2 h1
  · rw [if_neg h]
    exact hr

theorem not_mem_pad3 (n : Int) : '\n' ∉ pad3 n ∧ '|' ∉ pad3 n := by
  have hr := not_mem_repr n.natAbs
  simp only [pad3]
  by_cases h : n < 0
  · rw [if_pos h]
    constructor <;> intro hm <;> rcases List.mem_cons.mp hm with h1 | h1
    · cases h1
    · rcases List.mem_append.mp h1 with h2 | h2
      · have := List.eq_of_mem_replicate h2
        cases this
      · exact hr.1 h2
    · cases h1
    · rcases List.mem_append.mp h1 with h2 | h2
      · have := List.eq_of_mem_replicate h2
        cases this
      · exact hr.2 h2
  · rw [if_neg h]
    constructor <;> intro hm <;> rcases List.mem_append.mp hm with h2 | h2 <;>
      first
        | (have h3 := List.eq_of_mem_replicate h2
           cases h3)
        | exact hr.1 h2
        | exact hr.2 h2

theorem not_mem_month (i : Nat) :
    '\n' ∉ monthAbbrsCap.getD i [] ∧ '|' ∉ monthAbbrsCap.getD i [] := by
  by_cases h : i < 12
  · interval_cases i <;> decide
  · rw [List.getD_eq_default]
    · simp
    · simp only [monthAbbrsCap]
      simp
      omega

theorem not_mem_fmtDbYout (y mo da : Nat) :
    '\n' ∉ fmtDbYout y mo da ∧ '|' ∉ fmtDbYout y mo da := by
  have h1 := not_mem_pad2 da
  have h2 := not_mem_month (mo - 1)
  have h3 := not_mem_repr y
  simp only [fmtDbYout]
  constructor <;> intro hm <;> rcases List.mem_append.mp hm with h | h
  · rcases List.mem_append.mp h with h | h
    · exact h1.1 h
    · rcases List.mem_cons.mp h with h | h
      · cases h
      · exact h2.1 h
  · rcases List.mem_cons.mp h with h | h
    · cases h
    · exact h3.1 h
  · rcases List.mem_append.mp h with h | h
    · exact h1.2 h
    · rcases List.mem_cons.mp h with h | h
      · cases h
      · exact h2.2 h
  · rcases List.mem_cons.mp h with h | h
    · cases h
    · exact h3.2 h

theorem digits_no_nl_pipe (n : List Char) (h : pyIsDigit n = true) :
    '\n' ∉ n ∧ '|' ∉ n := by
  simp only [pyIsDigit, Bool.and_eq_true, List.all_eq_true] at h
  constructor <;> intro hm <;> have := h.2 _ hm <;> simp at this

theorem updTypes_facts (ty : List Char) (h : ty ∈ updTypes) :
    '\n' ∉ ty ∧ '|' ∉ ty ∧ pyStrip ty = ty ∧ ty ∈ rowTypes := by
  simp only [updTypes, List.mem_cons, List.not_mem_nil, or_false] at h
  rcases h with h | h | h <;> (subst h; refine ⟨by decide, by decide, by decide, by decide⟩)

/-- Structure of one generated row: shape, newline-freedom, and the pair the
table parser reads back from it. -/
theorem row_build (fd ty num c4 c5 c6 c7 c8 : List Char)
    (hfd : '\n' ∉ fd ∧ '|' ∉ fd)
    (hty : '\n' ∉ ty ∧ '|' ∉ ty ∧ pyStrip ty = ty ∧ ty ∈ rowTypes)
    (hnum : pyIsDigit num = true)
    (h4 : '\n' ∉ c4) (h5 : '\n' ∉ c5) (h6 : '\n' ∉ c6) (h7 : '\n' ∉ c7)
    (h8 : '\n' ∉ c8) :
    rowLineOk (('|' :: ' ' :: fd) ++ (' ' :: '|' :: ' ' :: ty) ++
      (' ' :: '|' :: ' ' :: num) ++ (' ' :: '|' :: ' ' :: c4) ++
      (' ' :: '|' :: ' ' :: c5) ++ (' ' :: '|' :: ' ' :: c6) ++
      (' ' :: '|' :: ' ' :: c7) ++ (' ' :: '|' :: ' ' :: c8) ++ [' ', '|']) = true ∧
    '\n' ∉ (('|' :: ' ' :: fd) ++ (' ' :: '|' :: ' ' :: ty) ++
      (' ' :: '|' :: ' ' :: num) ++ (' ' :: '|' :: ' ' :: c4) ++
      (' ' :: '|' :: ' ' :: c5) ++ (' ' :: '|' :: ' ' :: c6) ++
      (' ' :: '|' :: ' ' :: c7) ++ (' ' :: '|' :: ' ' :: c8) ++ [' ', '|']) ∧
    rowPair (('|' :: ' ' :: fd) ++ (' ' :: '|' :: ' ' :: ty) ++
      (' ' :: '|' :: ' ' :: num) ++ (' ' :: '|' :: ' ' :: c4) ++
      (' ' :: '|' :: ' ' :: c5) ++ (' ' :: '|' :: ' ' :: c6) ++
      (' ' :: '|' :: ' ' :: c7) ++ (' ' :: '|' :: ' ' :: c8) ++ [' ', '|']) =
      some (ty, num) := by
  have hnum2 := digits_no_nl_pipe num hnum
  have hR : ('|' :: ' ' :: fd) ++ (' ' :: '|' :: ' ' :: ty) ++
      (' ' :: '|' :: ' ' :: num) ++ (' ' :: '|' :: ' ' :: c4) ++
      (' ' :: '|' :: ' ' :: c5) ++ (' ' :: '|' :: ' ' :: c6) ++
      (' ' :: '|' :: ' ' :: c7) ++ (' ' :: '|' :: ' ' :: c8) ++ [' ', '|'] =
      '|' :: ((' ' :: (fd ++ [' '])) ++ '|' :: ((' ' :: (ty ++ [' '])) ++
        '|' :: ((' ' :: (num ++ [' '])) ++ '|' :: ((' ' :: c4) ++
        (' ' :: '|' :: ' ' :: c5) ++ (' ' :: '|' :: ' ' :: c6) ++
        (' ' :: '|' :: ' ' :: c7) ++ (' ' :: '|' :: ' ' :: c8) ++ [' ', '|'])))) := by
    simp [List.cons_append, List.append_assoc]
  refine ⟨?g1, ?g2, ?g3⟩
  case g1 =>
    simp only [rowLineOk, Bool.and_eq_true, decide_eq_true_eq]
    refine ⟨⟨?l1, ?l2⟩, ?l3⟩
    case l1 =>
      simp only [List.length_append, List.length_cons]
      omega
    case l2 =>
      rfl
    case l3 =>
      rw [show (([' ', '|'] : List Char)) = [' '] ++ ['|'] from rfl]
      rw [show ('|' :: ' ' :: fd) ++ (' ' :: '|' :: ' ' :: ty) ++
        (' ' :: '|' :: ' ' :: num) ++ (' ' :: '|' :: ' ' :: c4) ++
        (' ' :: '|' :: ' ' :: c5) ++ (' ' :: '|' :: ' ' :: c6) ++
        (' ' :: '|' :: ' ' :: c7) ++ (' ' :: '|' :: ' ' :: c8) ++
        ([' '] ++ ['|']) =
        (('|' :: ' ' :: fd) ++ (' ' :: '|' :: ' ' :: ty) ++
        (' ' :: '|' :: ' ' :: num) ++ (' ' :: '|' :: ' ' :: c4) ++
        (' ' :: '|' :: ' ' :: c5) ++ (' ' :: '|' :: ' ' :: c6) ++
        (' ' :: '|' :: ' ' :: c7) ++ (' ' :: '|' :: ' ' :: c8) ++
        [' ']) ++ ['|'] from by simp [List.append_assoc]]
      rw [List.getLastD_concat]
  case g2 =>
    intro hm
    rw [hR] at hm
    simp only [List.mem_cons, List.mem_append] at hm
    have hsp : ¬('\n' = ' ') := by decide
    have hpi : ¬('\n' = '|') := by decide
    have nfd := hfd.1
    have nty := hty.1
    have nnum := hnum2.1
    tauto
  case g3 =>
    have hp1 : '|' ∉ ' ' :: (fd ++ [' ']) := by
      intro hm
      rcases List.mem_cons.mp hm with h | h
      · exact absurd h (by decide)
      · rcases List.mem_append.mp h with h | h
        · exact hfd.2 h
        · rcases List.mem_cons.mp h with h | h
          · exact absurd h (by decide)
          · cases h
    have hp2 : '|' ∉ ' ' :: (ty ++ [' ']) := by
      intro hm
      rcases List.mem_cons.mp hm with h | h
      · exact absurd h (by decide)
      · rcases List.mem_append.mp h with h | h
        · exact hty.2.1 h
        · rcases List.mem_cons.mp h with h | h
          · exact absurd h (by decide)
          · cases h
    have hp3 : '|' ∉ ' ' :: (num ++ [' ']) := by
      intro hm
      rcases List.mem_cons.mp hm with h | h
      · exact absurd h (by decide)
      · rcases List.mem_append.mp h with h | h
        · exact hnum2.2 h
        · rcases List.mem_cons.mp h with h | h
          · exact absurd h (by decide)
          · cases h
    rw [hR]
    simp only [rowPair]
    rw [splitOn_head, splitOn_sandwich _ _ hp1, splitOn_sandwich _ _ hp2,
      splitOn_sandwich _ _ hp3]
    simp only [List.map_cons, List.length_cons]
    rw [if_pos (by omega)]
    simp only [List.getD_cons_succ, List.getD_cons_zero]
    simp only [pyStrip_sp_wrap, hty.2.2.1, pyStrip_digits num hnum]
    rw [if_pos (show (decide (ty ∈ rowTypes) && pyIsDigit num) = true by
      rw [decide_eq_true hty.2.2.2, hnum]
      rfl)]

theorem lookupFk_mem (fk : List ((List Char × List Char) × List Char))
    (k : List Char × List Char) (url : List Char)
    (h : lookupFk fk k = some url) : (k, url) ∈ fk := by
  simp only [lookupFk] at h
  cases hf : fk.find? (fun e => e.1 = k) with
  | none => rw [hf] at h; cases h
  | some e =>
    rw [hf] at h
    simp only [Option.map_some'] at h
    have hmem := List.mem_of_find?_eq_some hf
    have hp := List.find?_some hf
    have he1 : e.1 = k := by simpa using hp
    injection h with h2
    rw [← he1, ← h2]
    exact hmem

/-- Each generated row of a well-formed meeting is a valid table row line,
contains no newline, and parses back to the meeting's `(type, num)` pair. -/
theorem generate_row_valid (fk : List ((List Char × List Char) × List Char))
    (links : List Char → Option (List Char) × Option (List Char))
    (owner repo : List Char) (m : NewMeeting) (r : List Char)
    (hty : m.mtype ∈ updTypes)
    (hnum : pyIsDigit m.num = true)
    (hdate : ∀ d, m.date = some d →
      d = [] ∨ ((strptimeYmd fmtYmd d).isSome ∧ '\n' ∉ d))
    (hiss : '\n' ∉ m.issue_num)
    (hyt : ∀ i u, (links i).1 = some u → '\n' ∉ u)
    (hem : ∀ i u, (links i).2 = some u → '\n' ∉ u)
    (hfk : ∀ e ∈ fk, '\n' ∉ e.2)
    (hown : '\n' ∉ owner) (hrepo : '\n' ∉ repo)
    (hr : generate_row fk links owner repo m = some r) :
    rowLineOk r = true ∧ '\n' ∉ r ∧ rowPair r = some (m.mtype, m.num) := by
  rw [generate_row] at hr
  rw [pyInt_digits m.num hnum] at hr
  dsimp only at hr
  cases hr
  apply row_build
  · -- formatted date column
    constructor
    · intro hm
      cases hd : m.date with
      | none =>
        rw [hd] at hm
        exact absurd hm (by decide)
      | some d =>
        rw [hd] at hm
        dsimp only at hm
        rcases hdate d hd with h0 | ⟨hp, hnl⟩
        · rw [if_pos h0] at hm
          exact absurd hm (by decide)
        · by_cases h0 : d = []
          · rw [if_pos h0] at hm
            exact absurd hm (by decide)
          · rw [if_neg h0] at hm
            obtain ⟨⟨y, mo, da⟩, hps⟩ := Option.isSome_iff_exists.mp hp
            rw [hps] at hm
            dsimp only at hm
            exact (not_mem_fmtDbYout y mo da).1 hm
    · intro hm
      cases hd : m.date with
      | none =>
        rw [hd] at hm
        exact absurd hm (by decide)
      | some d =>
        rw [hd] at hm
        dsimp only at hm
        rcases hdate d hd with h0 | ⟨hp, hnl⟩
        · rw [if_pos h0] at hm
          exact absurd hm (by decide)
        · by_cases h0 : d = []
          · rw [if_pos h0] at hm
            exact absurd hm (by decide)
          · rw [if_neg h0] at hm
            obtain ⟨⟨y, mo, da⟩, hps⟩ := Option.isSome_iff_exists.mp hp
            rw [hps] at hm
            dsimp only at hm
            exact (not_mem_fmtDbYout y mo da).2 hm
  · exact updTypes_facts m.mtype hty
  · exact hnum
  · -- issue link column
    intro hm
    by_cases hi : m.issue_num = []
    · rw [if_pos hi] at hm
      exact absurd hm (by decide)
    · rw [if_neg hi] at hm
      have l1 : '\n' ∉ (("[#").toList : List Char) := by decide
      have l2 : '\n' ∉ (("](https://github.com/ethereum/pm/issues/").toList : List Char) := by decide
      have l3 : '\n' ∉ ((")").toList : List Char) := by decide
      simp only [List.mem_append] at hm
      tauto
  · -- summary column
    intro hm
    have l1 : '\n' ∉ (("[forkcast(").toList : List Char) := by decide
    have l2 : '\n' ∉ ((")").toList : List Char) := by decide
    cases hk : lookupFk fk (m.mtype, m.num) with
    | some url =>
      rw [hk] at hm
      dsimp only at hm
      have hmem := lookupFk_mem fk _ url hk
      have hu : '\n' ∉ url := hfk _ hmem
      simp only [List.mem_append] at hm
      tauto
    | none =>
      rw [hk] at hm
      dsimp only at hm
      by_cases hc : m.mtype = ("ACDT").toList ∧ m.num.length < 3
      · rw [if_pos hc] at hm
        cases hk2 : lookupFk fk (m.mtype, zfill3 m.num) with
        | some url =>
          rw [hk2] at hm
          dsimp only at hm
          have hmem := lookupFk_mem fk _ url hk2
          have hu : '\n' ∉ url := hfk _ hmem
          simp only [List.mem_append] at hm
          tauto
        | none =>
          rw [hk2] at hm
          exact absurd hm (by decide)
      · rw [if_neg hc] at hm
        exact absurd hm (by decide)
  · -- discussion column
    intro hm
    have l1 : '\n' ∉ (("[EthMag(").toList : List Char) := by decide
    have l2 : '\n' ∉ ((")").toList : List Char) := by decide
    by_cases hi : m.issue_num = []
    · rw [if_pos hi] at hm
      exact absurd hm (by decide)
    · rw [if_neg hi] at hm
      cases hl : (links m.issue_num).2 with
      | none =>
        rw [hl] at hm
        exact absurd hm (by decide)
      | some u =>
        rw [hl] at hm
        dsimp only at hm
        by_cases hu0 : u = []
        · rw [if_pos hu0] at hm
          exact absurd hm (by decide)
        · rw [if_neg hu0] at hm
          have hu : '\n' ∉ u := hem _ u hl
          simp only [List.mem_append] at hm
          tauto
  · -- recording column
    intro hm
    have l1 : '\n' ∉ (("[video(").toList : List Char) := by decide
    have l2 : '\n' ∉ ((")").toList : List Char) := by decide
    by_cases hi : m.issue_num = []
    · rw [if_pos hi] at hm
      exact absurd hm (by decide)
    · rw [if_neg hi] at hm
      cases hl : (links m.issue_num).1 with
      | none =>
        rw [hl] at hm
        exact absurd hm (by decide)
      | some u =>
        rw [hl] at hm
        dsimp only at hm
        by_cases hu0 : u = []
        · rw [if_pos hu0] at hm
          exact absurd hm (by decide)
        · rw [if_neg hu0] at hm
          have hu : '\n' ∉ u := hyt _ u hl
          simp only [List.mem_append] at hm
          tauto
  · -- logs column
    intro hm
    have l1 : '\n' ∉ (("[logs](https://github.com/").toList : List Char) := by decide
    have l2 : '\n' ∉ (("/tree/main/").toList : List Char) := by decide
    have l3 : '\n' ∉ ((")").toList : List Char) := by decide
    have l4 : '\n' ∉ (("Call-").toList : List Char) := by decide
    have l5 : '\n' ∉ (("None").toList : List Char) := by decide
    have lsl : ¬('\n' = '/') := by decide
    have lus : ¬('\n' = '_') := by decide
    have hmt := (updTypes_facts m.mtype hty).1
    have hpad := (not_mem_pad3 (digitsToNat m.num : Int)).1
    cases hd : m.date with
    | none =>
      rw [hd] at hm
      dsimp only at hm
      simp only [List.mem_append, List.mem_cons] at hm
      tauto
    | some d =>
      rw [hd] at hm
      dsimp only at hm
      have hnd : '\n' ∉ d := by
        rcases hdate d hd with h0 | ⟨hp, hnl⟩
        · subst h0; simp
        · exact hnl
      simp only [List.mem_append, List.mem_cons] at hm
      tauto

theorem generate_row_isSome (fk : List ((List Char × List Char) × List Char))
    (links : List Char → Option (List Char) × Option (List Char))
    (owner repo : List Char) (m : NewMeeting) (hnum : pyIsDigit m.num = true) :
    ∃ r, generate_row fk links owner repo m = some r := by
  rw [generate_row, pyInt_digits m.num hnum]
  dsimp only
  exact ⟨_, rfl⟩

theorem mapM_isSome {α β : Type} (f : α → Option β) :
    ∀ l : List α, (∀ x ∈ l, ∃ r, f x = some r) → ∃ res, l.mapM f = some res := by
  intro l
  induction l with
  | nil => intro _; exact ⟨[], rfl⟩
  | cons a t ih =>
    intro h
    obtain ⟨b, hb⟩ := h a (List.mem_cons_self a t)
    obtain ⟨bs, hbs⟩ := ih (fun x hx => h x (List.mem_cons_of_mem a hx))
    refine ⟨b :: bs, ?e⟩
    rw [List.mapM_cons, hb, hbs]
    rfl

theorem candMeeting_fields (kv : List Char × MainPy.CacheEntry) (m : NewMeeting)
    (hc : candMeeting kv = some m) :
    m.mtype ∈ updTypes ∧
    (∃ n, entGet kv.2 (("meeting_num").toList) = some (some n) ∧ n ≠ [] ∧
      m.num = n) ∧
    m.date = (entGet kv.2 (("date").toList)).join ∧
    m.issue_num = ((kv.1).splitOn '_').headD [] := by
  unfold candMeeting at hc
  cases hty : (match entGet kv.2 (("meeting_type").toList) with
      | none => some ([] : List Char)
      | some v => v) with
  | none => rw [hty] at hc; cases hc
  | some ty =>
    rw [hty] at hc
    dsimp only at hc
    by_cases hin : ty ∈ updTypes
    · rw [if_pos (by exact decide_eq_true hin)] at hc
      cases hn : entGet kv.2 (("meeting_num").toList) with
      | none => rw [hn] at hc; cases hc
      | some v =>
        rw [hn] at hc
        cases v with
        | none =>
          dsimp only at hc
          cases hc
        | some n =>
          dsimp only at hc
          by_cases h0 : n = []
          · rw [if_pos h0] at hc
            cases hc
          · rw [if_neg h0] at hc
            cases hc
            exact ⟨hin, ⟨n, rfl, h0, rfl⟩, rfl, rfl⟩
    · rw [if_neg (by simp [hin])] at hc
      cases hc

theorem meetingOfEntry_some (ex : List (List Char × List Char))
    (kv : List Char × MainPy.CacheEntry) (m : NewMeeting)
    (h : meetingOfEntry ex kv = some m) :
    candMeeting kv = some m ∧ (m.mtype, m.num) ∉ ex := by
  unfold meetingOfEntry at h
  cases hc : candMeeting kv with
  | none => rw [hc] at h; cases h
  | some m0 =>
    rw [hc] at h
    simp only [Option.some_bind] at h
    by_cases hmem : (m0.mtype, m0.num) ∈ ex
    · rw [if_pos hmem] at h
      cases h
    · rw [if_neg hmem] at h
      cases h
      exact ⟨rfl, hmem⟩

theorem meetingOfEntry_none_left (ex : List (List Char × List Char))
    (kv : List Char × MainPy.CacheEntry) (hc : candMeeting kv = none) :
    meetingOfEntry ex kv = none := by
  unfold meetingOfEntry
  rw [hc]
  rfl

theorem meetingOfEntry_none_mem (ex : List (List Char × List Char))
    (kv : List Char × MainPy.CacheEntry) (m : NewMeeting)
    (hc : candMeeting kv = some m) (hmem : (m.mtype, m.num) ∈ ex) :
    meetingOfEntry ex kv = none := by
  unfold meetingOfEntry
  rw [hc]
  simp only [Option.some_bind]
  rw [if_pos hmem]

theorem wf_meeting (kv : List Char × MainPy.CacheEntry) (m : NewMeeting)
    (hwf : wfEntry kv) (hc : candMeeting kv = some m) :
    m.mtype ∈ updTypes ∧ pyIsDigit m.num = true ∧
    (∀ d, m.date = some d →
      d = [] ∨ ((strptimeYmd fmtYmd d).isSome ∧ '\n' ∉ d)) ∧
    '\n' ∉ m.issue_num := by
  obtain ⟨hty, ⟨n, hn, hne, hnum⟩, hdate, hiss⟩ := candMeeting_fields kv m hc
  refine ⟨hty, ?g1, ?g2, ?g3⟩
  case g1 =>
    rw [hnum]
    exact hwf.1 n hn hne
  case g2 =>
    intro d hd
    exact hwf.2.1 d (by rw [← hdate]; exact hd)
  case g3 =>
    rw [hiss]
    exact hwf.2.2

end RT

/-- C7: the table update is append-only.  Whatever README and cache it is
given, a run of `update_readme_table` either reports no change and returns the
README unchanged, or returns the README with the old text fully preserved: the
part up to the end of the leftmost table-header match, then the newline-joined
generated rows of exactly those cache meetings whose `(type, num)` pair is
absent from the parsed pre-existing table, then the entire rest of the old
README - so every pre-existing row is still present unchanged and the new rows
sit right after the table header. -/
theorem c7_table_append_only (readme : List Char) (cache : MainPy.Cache)
    (fk : List ((List Char × List Char) × List Char))
    (links : List Char → Option (List Char) × Option (List Char))
    (owner repo : List Char) (changed : Bool) (out : List Char)
    (h : RT.update_readme_table readme cache fk links owner repo =
      some (changed, out)) :
    (changed = false ∧ out = readme) ∨
    (changed = true ∧ ∃ he rows,
      RT.findHeaderEnd readme = some he ∧
      (RT.sortByKeyAsc RT.meetingSortKey
          (cache.filterMap
            (RT.meetingOfEntry (RT.parse_existing_meetings readme)))).mapM
        (RT.generate_row fk links owner repo) = some rows ∧
      out = readme.take he ++ MainPy.joinSep ['\n'] rows ++
        '\n' :: readme.drop he ∧
      (∀ m ∈ cache.filterMap
          (RT.meetingOfEntry (RT.parse_existing_meetings readme)),
        (m.mtype, m.num) ∉ RT.parse_existing_meetings readme)) := by
  have hnotin : ∀ m ∈ cache.filterMap
      (RT.meetingOfEntry (RT.parse_existing_meetings readme)),
      (m.mtype, m.num) ∉ RT.parse_existing_meetings readme := by
    intro m hm
    obtain ⟨kv, hkv, hme⟩ := List.mem_filterMap.mp hm
    exact (RT.meetingOfEntry_some _ kv m hme).2
  rw [RT.update_readme_table] at h
  by_cases hnew : cache.filterMap
      (RT.meetingOfEntry (RT.parse_existing_meetings readme)) = []
  · rw [if_pos hnew] at h
    cases h
    exact Or.inl ⟨rfl, rfl⟩
  · rw [if_neg hnew] at h
    cases hrows : (RT.sortByKeyAsc RT.meetingSortKey
        (cache.filterMap
          (RT.meetingOfEntry (RT.parse_existing_meetings readme)))).mapM
        (RT.generate_row fk links owner repo) with
    | none => rw [hrows] at h; cases h
    | some rows =>
      rw [hrows] at h
      dsimp only at h
      cases hhe : RT.findHeaderEnd readme with
      | none =>
        rw [hhe] at h
        cases h
        exact Or.inl ⟨rfl, rfl⟩
      | some he =>
        rw [hhe] at h
        cases h
        exact Or.inr ⟨rfl, he, rows, rfl, rfl, rfl, hnotin⟩

set_option maxRecDepth 20000 in
theorem c7_table_append_only_witness :
    ((true : Bool) = false ∧ c7Out = c7Readme) ∨
    (true = true ∧ ∃ he rows,
      RT.findHeaderEnd c7Readme = some he ∧
      (RT.sortByKeyAsc RT.meetingSortKey
          (c7Cache.filterMap
            (RT.meetingOfEntry (RT.parse_existing_meetings c7Readme)))).mapM
        (RT.generate_row [] (fun _ => (none, none)) (("o").toList)
          (("r").toList)) = some rows ∧
      c7Out = c7Readme.take he ++ MainPy.joinSep ['\n'] rows ++
        '\n' :: c7Readme.drop he ∧
      (∀ m ∈ c7Cache.filterMap
          (RT.meetingOfEntry (RT.parse_existing_meetings c7Readme)),
        (m.mtype, m.num) ∉ RT.parse_existing_meetings c7Readme)) :=
  c7_table_append_only c7Readme c7Cache [] (fun _ => (none, none))
    (("o").toList) (("r").toList) true c7Out (by decide)

/-- C8: the table update is idempotent.  For a README that starts with the
`# ACD calls` table header and a cache whose entries are well formed (digit
meeting numbers, empty or `%Y-%m-%d` dates, newline-free keys) with
newline-free link oracles, after one run of `update_readme_table` produces
`out`, a second run on `out` with the same cache finds every cached ACD
meeting already present in the table (no cache entry yields a new meeting),
leaves the README unchanged and returns `False`. -/
theorem c8_table_idempotent (h1 s1 rest : List Char) (cache : MainPy.Cache)
    (fk : List ((List Char × List Char) × List Char))
    (links : List Char → Option (List Char) × Option (List Char))
    (owner repo : List Char)
    (hh1 : RT.rowLineOk h1 = true) (hn1 : '\n' ∉ h1)
    (hs1 : RT.sepLineOk s1 = true) (hn2 : '\n' ∉ s1)
    (hwf : ∀ kv ∈ cache, RT.wfEntry kv)
    (hyt : ∀ i u, (links i).1 = some u → '\n' ∉ u)
    (hem : ∀ i u, (links i).2 = some u → '\n' ∉ u)
    (hfk : ∀ e ∈ fk, '\n' ∉ e.2)
    (hown : '\n' ∉ owner) (hrepo : '\n' ∉ repo)
    (changed : Bool) (out : List Char)
    (hrun : RT.update_readme_table
      (RT.litHeader ++ '\n' :: '\n' :: (h1 ++ '\n' :: (s1 ++ '\n' :: rest)))
      cache fk links owner repo = some (changed, out)) :
    cache.filterMap (RT.meetingOfEntry (RT.parse_existing_meetings out)) = [] ∧
    RT.update_readme_table out cache fk links owner repo = some (false, out) := by
  have hfhe := RT.findHeaderEnd_canonical h1 s1 rest hh1 hn1 hs1 hn2
  rw [RT.update_readme_table] at hrun
  by_cases hnew : cache.filterMap (RT.meetingOfEntry
      (RT.parse_existing_meetings
        (RT.litHeader ++ '\n' :: '\n' :: (h1 ++ '\n' :: (s1 ++ '\n' :: rest))))) = []
  · rw [if_pos hnew] at hrun
    cases hrun
    refine ⟨hnew, ?g⟩
    rw [RT.update_readme_table, if_pos hnew]
  · rw [if_neg hnew] at hrun
    have hmwf : ∀ m ∈ RT.sortByKeyAsc RT.meetingSortKey
        (cache.filterMap (RT.meetingOfEntry
          (RT.parse_existing_meetings
            (RT.litHeader ++ '\n' :: '\n' :: (h1 ++ '\n' :: (s1 ++ '\n' :: rest)))))),
        m.mtype ∈ RT.updTypes ∧ pyIsDigit m.num = true ∧
        (∀ d, m.date = some d →
          d = [] ∨ ((strptimeYmd fmtYmd d).isSome ∧ '\n' ∉ d)) ∧
        '\n' ∉ m.issue_num := by
      intro m hm
      rw [RT.mem_sortByKeyAsc] at hm
      obtain ⟨kv, hkv, hme⟩ := List.mem_filterMap.mp hm
      exact RT.wf_meeting kv m (hwf kv hkv)
        (RT.meetingOfEntry_some _ kv m hme).1
    obtain ⟨rows, hrows⟩ := RT.mapM_isSome (RT.generate_row fk links owner repo) _
      (fun m hm => RT.generate_row_isSome fk links owner repo m (hmwf m hm).2.1)
    rw [hrows] at hrun
    dsimp only at hrun
    rw [hfhe] at hrun
    cases hrun
    have hvalid : ∀ r ∈ rows, RT.rowLineOk r = true ∧ '\n' ∉ r := by
      intro r hr
      obtain ⟨m, hm, hgen⟩ := RT.mapM_mem_backward _ _ rows hrows r hr
      obtain ⟨a, b, c, d⟩ := hmwf m hm
      have hv := RT.generate_row_valid fk links owner repo m r a b c d
        hyt hem hfk hown hrepo hgen
      exact ⟨hv.1, hv.2.1⟩
    have hsne : RT.sortByKeyAsc RT.meetingSortKey
        (cache.filterMap (RT.meetingOfEntry
          (RT.parse_existing_meetings
            (RT.litHeader ++ '\n' :: '\n' :: (h1 ++ '\n' :: (s1 ++ '\n' :: rest)))))) ≠ [] := by
      cases hc : cache.filterMap (RT.meetingOfEntry
          (RT.parse_existing_meetings
            (RT.litHeader ++ '\n' :: '\n' :: (h1 ++ '\n' :: (s1 ++ '\n' :: rest))))) with
      | nil => exact absurd hc hnew
      | cons x xs =>
        exact RT.sortByKeyAsc_ne_nil _ x xs
    obtain ⟨r0, rows', hre⟩ : ∃ r0 rows', rows = r0 :: rows' := by
      cases hs : RT.sortByKeyAsc RT.meetingSortKey
          (cache.filterMap (RT.meetingOfEntry
            (RT.parse_existing_meetings
              (RT.litHeader ++ '\n' :: '\n' :: (h1 ++ '\n' :: (s1 ++ '\n' :: rest)))))) with
      | nil => exact absurd hs hsne
      | cons y ys =>
        rw [hs, List.mapM_cons] at hrows
        cases hfy : RT.generate_row fk links owner repo y with
        | none =>
          rw [hfy] at hrows
          cases hrows
        | some b =>
          rw [hfy] at hrows
          cases hfs : ys.mapM (RT.generate_row fk links owner repo) with
          | none =>
            rw [hfs] at hrows
            cases hrows
          | some bs =>
            rw [hfs] at hrows
            simp only [Option.bind_eq_bind, Option.some_bind, Option.pure_def] at hrows
            cases hrows
            exact ⟨b, bs, rfl⟩
    subst hre
    have hshape : (RT.litHeader ++ '\n' :: '\n' :: (h1 ++ '\n' :: (s1 ++ '\n' :: rest))).take
          (11 + 2 + (h1.length + 1) + (s1.length + 1)) ++
        MainPy.joinSep ['\n'] (r0 :: rows') ++
        '\n' :: (RT.litHeader ++ '\n' :: '\n' :: (h1 ++ '\n' :: (s1 ++ '\n' :: rest))).drop
          (11 + 2 + (h1.length + 1) + (s1.length + 1)) =
        RT.litHeader ++ '\n' :: '\n' :: (h1 ++ '\n' ::
          (s1 ++ '\n' :: (MainPy.joinSep ['\n'] (r0 :: rows') ++ '\n' :: rest))) := by
      rw [RT.canonical_take, RT.canonical_drop]
      simp [List.append_assoc]
    rw [hshape]
    have hpe : RT.parse_existing_meetings
        (RT.litHeader ++ '\n' :: '\n' :: (h1 ++ '\n' ::
          (s1 ++ '\n' :: (MainPy.joinSep ['\n'] (r0 :: rows') ++ '\n' :: rest)))) =
        (r0 :: rows').filterMap RT.rowPair ++
          (RT.collectRowLines rest).filterMap RT.rowPair := by
      rw [RT.parse_existing_meetings,
        RT.findHeaderEnd_canonical h1 s1 _ hh1 hn1 hs1 hn2]
      dsimp only
      rw [RT.canonical_drop, RT.collect_joined rows' r0 rest hvalid,
        List.filterMap_append]
    have hpeR : RT.parse_existing_meetings
        (RT.litHeader ++ '\n' :: '\n' :: (h1 ++ '\n' :: (s1 ++ '\n' :: rest))) =
        (RT.collectRowLines rest).filterMap RT.rowPair := by
      rw [RT.parse_existing_meetings, hfhe]
      dsimp only
      rw [RT.canonical_drop]
    have hnone : ∀ kv ∈ cache, RT.meetingOfEntry
        (RT.parse_existing_meetings
          (RT.litHeader ++ '\n' :: '\n' :: (h1 ++ '\n' ::
            (s1 ++ '\n' :: (MainPy.joinSep ['\n'] (r0 :: rows') ++ '\n' :: rest))))) kv =
        none := by
      intro kv hkv
      cases hc : RT.candMeeting kv with
      | none => exact RT.meetingOfEntry_none_left _ kv hc
      | some m =>
        apply RT.meetingOfEntry_none_mem _ kv m hc
        rw [hpe]
        by_cases hmem : (m.mtype, m.num) ∈ RT.parse_existing_meetings
            (RT.litHeader ++ '\n' :: '\n' :: (h1 ++ '\n' :: (s1 ++ '\n' :: rest)))
        · rw [hpeR] at hmem
          exact List.mem_append_right _ hmem
        · have hmNew : m ∈ cache.filterMap (RT.meetingOfEntry
              (RT.parse_existing_meetings
                (RT.litHeader ++ '\n' :: '\n' :: (h1 ++ '\n' :: (s1 ++ '\n' :: rest))))) :=
            List.mem_filterMap.mpr ⟨kv, hkv, by
              unfold RT.meetingOfEntry
              rw [hc]
              simp only [Option.some_bind]
              rw [if_neg hmem]⟩
          have hmS := (RT.mem_sortByKeyAsc RT.meetingSortKey m _).mpr hmNew
          obtain ⟨r, hrmem, hgen⟩ :=
            RT.mapM_mem_forward _ _ (r0 :: rows') hrows m hmS
          obtain ⟨a, b, c, d⟩ := hmwf m hmS
          have hrp := (RT.generate_row_valid fk links owner repo m r a b c d
            hyt hem hfk hown hrepo hgen).2.2
          exact List.mem_append_left _ (List.mem_filterMap.mpr ⟨r, hrmem, hrp⟩)
    have hnil : cache.filterMap (RT.meetingOfEntry
        (RT.parse_existing_meetings
          (RT.litHeader ++ '\n' :: '\n' :: (h1 ++ '\n' ::
            (s1 ++ '\n' :: (MainPy.joinSep ['\n'] (r0 :: rows') ++ '\n' :: rest)))))) = [] :=
      List.filterMap_eq_nil_iff.mpr hnone
    refine ⟨hnil, ?g2⟩
    rw [RT.update_readme_table, if_pos hnil]

set_option maxRecDepth 40000 in
theorem c8_table_idempotent_witness :
    c7Cache.filterMap
      (RT.meetingOfEntry (RT.parse_existing_meetings c7Out)) = [] ∧
    RT.update_readme_table c7Out c7Cache [] (fun _ => (none, none))
      (("o").toList) (("r").toList) = some (false, c7Out) :=
  c8_table_idempotent (("| h |").toList) (("| ---s|").toList) [] c7Cache []
    (fun _ => (none, none)) (("o").toList) (("r").toList)
    (by decide) (by decide) (by decide) (by decide)
    (by
      intro kv hkv
      simp only [c7Cache, List.mem_cons, List.not_mem_nil, or_false] at hkv
      subst hkv
      refine ⟨?a, ?b, by decide⟩
      case a =>
        intro n hn hne
        have he : RT.entGet
            [(("meeting_type").toList, some (("ACDT").toList)),
             (("meeting_num").toList, some (("56").toList)),
             (("date").toList, some (("2025-09-26").toList))]
            (("meeting_num").toList) = some (some (("56").toList)) := by decide
        rw [he] at hn
        injection hn with hn2
        injection hn2 with hn3
        rw [← hn3]
        decide
      case b =>
        intro d hd
        have he : (RT.entGet
            [(("meeting_type").toList, some (("ACDT").toList)),
             (("meeting_num").toList, some (("56").toList)),
             (("date").toList, some (("2025-09-26").toList))]
            (("date").toList)).join = some (("2025-09-26").toList) := by decide
        rw [he] at hd
        injection hd with hd2
        rw [← hd2]
        right
        constructor
        · decide
        · decide)
    (fun i u h => nomatch h)
    (fun i u h => nomatch h)
    (fun e he => absurd he (List.not_mem_nil e))
    (by decide) (by decide)
    true c7Out (by decide)

end EthPT
